import Mathlib

/-!
# Policy propagation: `pkg/controller/propagator/propagation.go`

A shallow embedding of `handleRootPolicy` and `handleDecision` together with the
object store client they talk to.

* Go `map[string]string` values (labels, annotations) are finite maps; a nil map and an
  empty map are the same value `∅`.
* Go `error` values are `Option StoreError`, `nil` being `none`.
* The object store client is explicit state: the stored objects, a script of transient
  failures that the next calls will hit, and a log of every call issued with its result.
  A call that hits a scheduled failure has no effect and returns a conflict or an internal
  error; a call that is served behaves as a keyed object store does, so not-found and
  already-exists arise from the stored objects only.
* The locals `placement` and `allDecisions` of `handleRootPolicy` are returned next to the
  error, `allDecisions` being the record of the calls of `handleDecision`.
* The event recorder is the list of events emitted so far. Logger calls have no effect
  on the program state and are left out.
-/

namespace Propagator

/-- Go `map[string]string`. -/
abbrev StrMap := Finmap (fun _ : String => String)

/-- The `Spec` of a policy. Only `Disabled` is read by the propagator; the remaining
fields are carried around as one value. -/
structure PolicySpec where
  Disabled : Bool
  Payload : String
deriving DecidableEq

/-- The `Status` of a policy: never inspected by the propagator, only reset to its zero value. -/
structure PolicyStatus where
  Payload : String
deriving DecidableEq

/-- The zero value `policiesv1.PolicyStatus{}`. -/
def PolicyStatus.zero : PolicyStatus := ⟨""⟩

/-- A `policiesv1.Policy` object: the metadata fields the propagator touches, spec and status. -/
structure Policy where
  Namespace : String
  Name : String
  ResourceVersion : String
  Labels : StrMap
  Annotations : StrMap
  Spec : PolicySpec
  Status : PolicyStatus

/-- The zero value `&policiesv1.Policy{}`. -/
def Policy.zero : Policy := ⟨"", "", "", ∅, ∅, ⟨false, ""⟩, PolicyStatus.zero⟩

/-- One entry of `pb.Subjects`. -/
structure Subject where
  APIGroup : String
  Kind : String
  Name : String

/-- The `PlacementRef` of a binding. -/
structure PlacementRef where
  Name : String

/-- A `policiesv1.PlacementBinding`. -/
structure PlacementBinding where
  Namespace : String
  Name : String
  PlacementRef : PlacementRef
  Subjects : List Subject

/-- An `appsv1.PlacementDecision`. -/
structure PlacementDecision where
  ClusterName : String
  ClusterNamespace : String
deriving DecidableEq

/-- The `Status` of a placement rule. -/
structure PlacementRuleStatus where
  Decisions : List PlacementDecision

/-- An `appsv1.PlacementRule`. -/
structure PlacementRule where
  Namespace : String
  Name : String
  Status : PlacementRuleStatus

/-- The zero value `&appsv1.PlacementRule{}`. -/
def PlacementRule.zero : PlacementRule := ⟨"", "", ⟨[]⟩⟩

/-- A `policiesv1.Placement` record. -/
structure Placement where
  PlacementBinding : String
  PlacementRule : String
deriving DecidableEq

/-- Errors returned by the object store client. -/
inductive StoreError where
  | NotFound
  | AlreadyExists
  | Conflict
  | Internal (msg : String)
deriving DecidableEq

/-- The test `errors.IsNotFound`. -/
def StoreError.IsNotFound : StoreError → Bool
  | .NotFound => true
  | _ => false

/-- A transient failure of the object store: the call it hits has no effect and returns
the corresponding error. Not-found is never injected, it only arises from the stored state. -/
inductive Fault where
  | Conflict
  | Internal (msg : String)
deriving DecidableEq

/-- The error a transient failure surfaces as. -/
def Fault.toError : Fault → StoreError
  | .Conflict => .Conflict
  | .Internal msg => .Internal msg

/-- The calls the propagator issues to the object store client. -/
inductive Call where
  | ListPolicies (selector : StrMap)
  | Delete (obj : Policy)
  | StatusUpdate (obj : Policy)
  | ListPlacementBindings (ns : String)
  | GetPlacementRule (ns : String) (name : String)
  | GetPolicy (ns : String) (name : String)
  | Create (obj : Policy)
  | Update (obj : Policy)

/-- One line of the call log: the call and the error it returned. -/
structure LogEntry where
  call : Call
  result : Option StoreError

/-- The object store client: stored objects, the failures scheduled for the coming calls
(one entry is consumed per call, `none` meaning the call is served), and the call log. -/
structure Client where
  policies : List Policy
  bindings : List PlacementBinding
  rules : List PlacementRule
  faults : List (Option Fault)
  log : List LogEntry

/-- An event handed to `r.recorder.Event`. -/
structure Event where
  Namespace : String
  Name : String
  EventType : String
  Reason : String
  Message : String

/-- The receiver `r *ReconcilePolicy`: the client and the events recorded so far. -/
structure ReconcilePolicy where
  client : Client
  recorder : List Event

/-- The parts of package `common` and `policiesv1` that the propagator uses and whose
declarations are outside this file: two API constants, three label keys and the
replica naming function. -/
structure Common where
  Group : String
  Kind : String
  ClusterNameLabel : String
  ClusterNamespaceLabel : String
  RootPolicyLabel : String
  FullNameForPolicy : Policy → String

/-- Modelled from the spec: `common.LabelsForRootPolicy` is not part of the sources; the
replicas "labeled as owned by root" are those whose owning-root label is the root's full name. -/
def Common.LabelsForRootPolicy (c : Common) (plc : Policy) : StrMap :=
  Finmap.singleton c.RootPolicyLabel (c.FullNameForPolicy plc)

/-- Modelled from the spec: `common.CompareSpecAndAnnotation` is not part of the sources; it is
"structural equality over exactly the root's specification payload and its annotation mapping
against the replica's corresponding fields", absent and empty maps being equal. -/
def Common.CompareSpecAndAnnotation (plc1 plc2 : Policy) : Bool :=
  decide (plc1.Annotations = plc2.Annotations) && decide (plc1.Spec = plc2.Spec)

/-! ## The object store client -/

/-- The failure, if any, that the next call hits. -/
def Client.fault (cl : Client) : Option StoreError :=
  match cl.faults with
  | some f :: _ => some f.toError
  | _ => none

/-- Book-keeping common to all calls: consume one script entry, append to the log. -/
def Client.record (cl : Client) (call : Call) (result : Option StoreError) : Client :=
  { cl with faults := cl.faults.tail, log := cl.log ++ [⟨call, result⟩] }

/-- Whether `p` is stored under `(ns, name)`. -/
def Policy.hasKey (ns name : String) (p : Policy) : Bool :=
  decide (p.Namespace = ns) && decide (p.Name = name)

/-- Label selection `client.MatchingLabels`: every entry of the selector is a label of the object. -/
def matchesLabels (selector : StrMap) (p : Policy) : Bool :=
  decide (∀ k ∈ selector.keys, p.Labels.lookup k = selector.lookup k)

/-- Get of a policy into a fresh object: on error the object stays the zero value. -/
def Client.GetPolicy (cl : Client) (ns name : String) : Option StoreError × Policy × Client :=
  match cl.fault with
  | some e => (some e, Policy.zero, cl.record (.GetPolicy ns name) (some e))
  | none =>
    match cl.policies.find? (Policy.hasKey ns name) with
    | some p => (none, p, cl.record (.GetPolicy ns name) none)
    | none => (some .NotFound, Policy.zero, cl.record (.GetPolicy ns name) (some .NotFound))

/-- Get of a placement rule into a fresh object: on error the object stays the zero value. -/
def Client.GetPlacementRule (cl : Client) (ns name : String) :
    Option StoreError × PlacementRule × Client :=
  match cl.fault with
  | some e => (some e, PlacementRule.zero, cl.record (.GetPlacementRule ns name) (some e))
  | none =>
    match cl.rules.find? (fun plr => decide (plr.Namespace = ns) && decide (plr.Name = name)) with
    | some plr => (none, plr, cl.record (.GetPlacementRule ns name) none)
    | none =>
      (some .NotFound, PlacementRule.zero, cl.record (.GetPlacementRule ns name) (some .NotFound))

/-- List of the policies matching a label selector. -/
def Client.ListPolicies (cl : Client) (selector : StrMap) :
    Option StoreError × List Policy × Client :=
  match cl.fault with
  | some e => (some e, [], cl.record (.ListPolicies selector) (some e))
  | none => (none, cl.policies.filter (matchesLabels selector), cl.record (.ListPolicies selector) none)

/-- List of the placement bindings of a namespace. -/
def Client.ListPlacementBindings (cl : Client) (ns : String) :
    Option StoreError × List PlacementBinding × Client :=
  match cl.fault with
  | some e => (some e, [], cl.record (.ListPlacementBindings ns) (some e))
  | none =>
    (none, cl.bindings.filter (fun pb => decide (pb.Namespace = ns)),
      cl.record (.ListPlacementBindings ns) none)

/-- Create stores the object it is given, unless one is already stored under its key. -/
def Client.Create (cl : Client) (obj : Policy) : Option StoreError × Client :=
  match cl.fault with
  | some e => (some e, cl.record (.Create obj) (some e))
  | none =>
    if cl.policies.any (Policy.hasKey obj.Namespace obj.Name) then
      (some .AlreadyExists, cl.record (.Create obj) (some .AlreadyExists))
    else
      (none, { cl.record (.Create obj) none with policies := cl.policies ++ [obj] })

/-- Update replaces the object stored under the key of the object it is given. -/
def Client.Update (cl : Client) (obj : Policy) : Option StoreError × Client :=
  match cl.fault with
  | some e => (some e, cl.record (.Update obj) (some e))
  | none =>
    if cl.policies.any (Policy.hasKey obj.Namespace obj.Name) then
      (none, { cl.record (.Update obj) none with
        policies := cl.policies.map
          (fun p => if Policy.hasKey obj.Namespace obj.Name p then obj else p) })
    else
      (some .NotFound, cl.record (.Update obj) (some .NotFound))

/-- Delete removes the object stored under the key of the object it is given. -/
def Client.Delete (cl : Client) (obj : Policy) : Option StoreError × Client :=
  match cl.fault with
  | some e => (some e, cl.record (.Delete obj) (some e))
  | none =>
    if cl.policies.any (Policy.hasKey obj.Namespace obj.Name) then
      (none, { cl.record (.Delete obj) none with
        policies := cl.policies.filter (fun p => !Policy.hasKey obj.Namespace obj.Name p) })
    else
      (some .NotFound, cl.record (.Delete obj) (some .NotFound))

/-- The status writer `Status().Update`: replaces the status, and only the status, of the
object stored under the key of the object it is given. -/
def Client.StatusUpdate (cl : Client) (obj : Policy) : Option StoreError × Client :=
  match cl.fault with
  | some e => (some e, cl.record (.StatusUpdate obj) (some e))
  | none =>
    if cl.policies.any (Policy.hasKey obj.Namespace obj.Name) then
      (none, { cl.record (.StatusUpdate obj) none with
        policies := cl.policies.map
          (fun p => if Policy.hasKey obj.Namespace obj.Name p then { p with Status := obj.Status } else p) })
    else
      (some .NotFound, cl.record (.StatusUpdate obj) (some .NotFound))

/-! ## `handleDecision` -/

/-- The event sent after a replica was created. -/
def propagatedEvent (inst : Policy) (decision : PlacementDecision) : Event :=
  ⟨inst.Namespace, inst.Name, "Normal", "PolicyPropagation",
    "Policy " ++ inst.Namespace ++ "/" ++ inst.Name ++ " was propagated to cluster " ++
      decision.ClusterNamespace ++ "/" ++ decision.ClusterName⟩

/-- The event sent after a replica was updated. -/
def updatedEvent (inst : Policy) (decision : PlacementDecision) : Event :=
  ⟨inst.Namespace, inst.Name, "Normal", "PolicyPropagation",
    "Policy " ++ inst.Namespace ++ "/" ++ inst.Name ++ " was updated for cluster " ++
      decision.ClusterNamespace ++ "/" ++ decision.ClusterName⟩

/-- The event sent after the clean-up of a disabled root. -/
def disabledEvent (inst : Policy) : Event :=
  ⟨inst.Namespace, inst.Name, "Normal", "PolicyPropagation",
    "Policy " ++ inst.Namespace ++ "/" ++ inst.Name ++ " was disabled"⟩

/-- The object built on the not-found branch of `handleDecision` (lines 111-122): a deep copy
of the root, renamed, moved to the cluster namespace, with an empty resource version and the
three labels set in source order. A nil label map is replaced by an empty one before the
three assignments; both are `∅` here. -/
def newReplica (c : Common) (inst : Policy) (decision : PlacementDecision) : Policy :=
  { inst with
    Name := c.FullNameForPolicy inst
    Namespace := decision.ClusterNamespace
    ResourceVersion := ""
    Labels := ((inst.Labels.insert c.ClusterNameLabel decision.ClusterName).insert
      c.ClusterNamespaceLabel decision.ClusterNamespace).insert
      c.RootPolicyLabel (c.FullNameForPolicy inst) }

/-- The compare-and-patch tail of `handleDecision` (lines 143-161), reached with the replica
that was fetched or just created. -/
def compareAndPatch (inst : Policy) (decision : PlacementDecision)
    (replicatedPlc : Policy) (r : ReconcilePolicy) : Option StoreError × ReconcilePolicy :=
  if !Common.CompareSpecAndAnnotation inst replicatedPlc then
    let replicatedPlc := { replicatedPlc with Annotations := inst.Annotations, Spec := inst.Spec }
    match r.client.Update replicatedPlc with
    | (some err, cl) => (some err, { r with client := cl })
    | (none, cl) => (none, { client := cl, recorder := r.recorder ++ [updatedEvent inst decision] })
  else
    (none, r)

/-- The function `handleDecision`: create the replica of `inst` in the decision's cluster
namespace when it is missing, then bring its spec and annotations in line with the root's. -/
def handleDecision (c : Common) (inst : Policy) (decision : PlacementDecision)
    (r : ReconcilePolicy) : Option StoreError × ReconcilePolicy :=
  match r.client.GetPolicy decision.ClusterNamespace (c.FullNameForPolicy inst) with
  | (some err, _, cl) =>
    if err.IsNotFound then
      let replicatedPlc := newReplica c inst decision
      match cl.Create replicatedPlc with
      | (some err, cl) => (some err, { r with client := cl })
      | (none, cl) =>
        compareAndPatch inst decision replicatedPlc
          { client := cl, recorder := r.recorder ++ [propagatedEvent inst decision] }
    else
      (some err, { r with client := cl })
  | (none, replicatedPlc, cl) =>
    compareAndPatch inst decision replicatedPlc { r with client := cl }

/-! ## `handleRootPolicy` -/

/-- The state of one pass over the bindings: the reconciler and the two local slices
`placement` and `allDecisions`. -/
structure Pass where
  r : ReconcilePolicy
  placement : List Placement
  allDecisions : List PlacementDecision

/-- The loop over `decisions` (lines 84-91): each decision is appended to `allDecisions`
and handed to `handleDecision`; the first error ends the pass. -/
def decisionLoop (c : Common) (inst : Policy) :
    List PlacementDecision → Pass → Option StoreError × Pass
  | [], st => (none, st)
  | decision :: rest, st =>
    match handleDecision c inst decision st.r with
    | (some err, r) => (some err, { st with r := r, allDecisions := st.allDecisions ++ [decision] })
    | (none, r) =>
      decisionLoop c inst rest { st with r := r, allDecisions := st.allDecisions ++ [decision] }

/-- Whether a subject names the root (line 65-66). -/
def subjectMatches (c : Common) (inst : Policy) (subject : Subject) : Bool :=
  decide (subject.APIGroup = c.Group) && decide (subject.Kind = c.Kind) &&
    decide (subject.Name = inst.Name)

/-- The loop over `pb.Subjects` (lines 64-95): at the first subject naming the root the
placement rule of the binding is fetched and its decisions are handled, then the loop is left. -/
def subjectLoop (c : Common) (inst : Policy) (pb : PlacementBinding) :
    List Subject → Pass → Option StoreError × Pass
  | [], st => (none, st)
  | subject :: rest, st =>
    if subjectMatches c inst subject then
      match st.r.client.GetPlacementRule inst.Namespace pb.PlacementRef.Name with
      | (err, plr, cl) =>
        if err.isSome && !(err.any StoreError.IsNotFound) then
          (err, { st with r := { st.r with client := cl } })
        else
          decisionLoop c inst plr.Status.Decisions
            { st with
              r := { st.r with client := cl }
              placement := st.placement ++ [⟨pb.Name, plr.Name⟩] }
    else
      subjectLoop c inst pb rest st

/-- The loop over `pbList.Items` (lines 62-96). -/
def bindingLoop (c : Common) (inst : Policy) :
    List PlacementBinding → Pass → Option StoreError × Pass
  | [], st => (none, st)
  | pb :: rest, st =>
    match subjectLoop c inst pb pb.Subjects st with
    | (some err, st) => (some err, st)
    | (none, st) => bindingLoop c inst rest st

/-- The loop over `replicatedPlcList.Items` (lines 31-39): not-found from a delete is ignored,
any other error ends the pass. -/
def deleteLoop : List Policy → Client → Option StoreError × Client
  | [], cl => (none, cl)
  | plc :: rest, cl =>
    match cl.Delete plc with
    | (some err, cl) => if !err.IsNotFound then (some err, cl) else deleteLoop rest cl
    | (none, cl) => deleteLoop rest cl

/-- What a call of `handleRootPolicy` leaves behind: the returned error, the caller's policy
object (whose status the disabled branch resets), the reconciler, and the final values of
the locals `placement` and `allDecisions`. -/
structure Outcome where
  err : Option StoreError
  inst : Policy
  r : ReconcilePolicy
  placement : List Placement
  allDecisions : List PlacementDecision

/-- The function `handleRootPolicy`. -/
def handleRootPolicy (c : Common) (inst : Policy) (r : ReconcilePolicy) : Outcome :=
  if inst.Spec.Disabled then
    match r.client.ListPolicies (c.LabelsForRootPolicy inst) with
    | (some err, _, cl) => ⟨some err, inst, { r with client := cl }, [], []⟩
    | (none, items, cl) =>
      match deleteLoop items cl with
      | (some err, cl) => ⟨some err, inst, { r with client := cl }, [], []⟩
      | (none, cl) =>
        let inst := { inst with Status := PolicyStatus.zero }
        match cl.StatusUpdate inst with
        | (some err, cl) =>
          if !err.IsNotFound then
            ⟨some err, inst, { r with client := cl }, [], []⟩
          else
            ⟨none, inst, { client := cl, recorder := r.recorder ++ [disabledEvent inst] }, [], []⟩
        | (none, cl) =>
          ⟨none, inst, { client := cl, recorder := r.recorder ++ [disabledEvent inst] }, [], []⟩
  else
    match r.client.ListPlacementBindings inst.Namespace with
    | (some err, _, cl) => ⟨some err, inst, { r with client := cl }, [], []⟩
    | (none, items, cl) =>
      match bindingLoop c inst items ⟨{ r with client := cl }, [], []⟩ with
      | (err, st) => ⟨err, inst, st.r, st.placement, st.allDecisions⟩

/-! ## Specification vocabulary -/

/-- The replica as patched on the update branch (lines 149-150): annotations and spec are
taken from the root, everything else is kept. -/
def patched (inst replicatedPlc : Policy) : Policy :=
  { replicatedPlc with Annotations := inst.Annotations, Spec := inst.Spec }

/-- The six ways a call of `handleDecision` can run, each with the state it leaves. -/
inductive DecisionRun (c : Common) (inst : Policy) (decision : PlacementDecision)
    (r : ReconcilePolicy) : Option StoreError × ReconcilePolicy → Prop where
  | getFailed (e : StoreError) (hne : e.IsNotFound = false) (hf : r.client.fault = some e) :
      DecisionRun c inst decision r
        (some e, { r with client := (r.client.record
          (.GetPolicy decision.ClusterNamespace (c.FullNameForPolicy inst)) (some e)) })
  | upToDate (p : Policy) (hf : r.client.fault = none)
      (hp : r.client.policies.find?
        (Policy.hasKey decision.ClusterNamespace (c.FullNameForPolicy inst)) = some p)
      (heq : Common.CompareSpecAndAnnotation inst p = true) :
      DecisionRun c inst decision r
        (none, { r with client := (r.client.record
          (.GetPolicy decision.ClusterNamespace (c.FullNameForPolicy inst)) none) })
  | updateFailed (p : Policy) (e : StoreError) (hf : r.client.fault = none)
      (hp : r.client.policies.find?
        (Policy.hasKey decision.ClusterNamespace (c.FullNameForPolicy inst)) = some p)
      (hne : Common.CompareSpecAndAnnotation inst p = false)
      (hf2 : (r.client.record
        (.GetPolicy decision.ClusterNamespace (c.FullNameForPolicy inst)) none).fault = some e) :
      DecisionRun c inst decision r
        (some e, { r with client := ((r.client.record
          (.GetPolicy decision.ClusterNamespace (c.FullNameForPolicy inst)) none).record
            (.Update (patched inst p)) (some e)) })
  | updated (p : Policy) (hf : r.client.fault = none)
      (hp : r.client.policies.find?
        (Policy.hasKey decision.ClusterNamespace (c.FullNameForPolicy inst)) = some p)
      (hne : Common.CompareSpecAndAnnotation inst p = false)
      (hf2 : (r.client.record
        (.GetPolicy decision.ClusterNamespace (c.FullNameForPolicy inst)) none).fault = none) :
      DecisionRun c inst decision r
        (none,
          { client := { (r.client.record
              (.GetPolicy decision.ClusterNamespace (c.FullNameForPolicy inst)) none).record
                (.Update (patched inst p)) none with
              policies := (r.client.policies.map (fun q =>
                if Policy.hasKey decision.ClusterNamespace (c.FullNameForPolicy inst) q
                then patched inst p else q)) }
            recorder := r.recorder ++ [updatedEvent inst decision] })
  | createFailed (e : StoreError) (hf : r.client.fault = none)
      (hp : r.client.policies.find?
        (Policy.hasKey decision.ClusterNamespace (c.FullNameForPolicy inst)) = none)
      (hf2 : (r.client.record (.GetPolicy decision.ClusterNamespace (c.FullNameForPolicy inst))
        (some .NotFound)).fault = some e) :
      DecisionRun c inst decision r
        (some e, { r with client := ((r.client.record
          (.GetPolicy decision.ClusterNamespace (c.FullNameForPolicy inst))
            (some .NotFound)).record (.Create (newReplica c inst decision)) (some e)) })
  | created (hf : r.client.fault = none)
      (hp : r.client.policies.find?
        (Policy.hasKey decision.ClusterNamespace (c.FullNameForPolicy inst)) = none)
      (hf2 : (r.client.record (.GetPolicy decision.ClusterNamespace (c.FullNameForPolicy inst))
        (some .NotFound)).fault = none) :
      DecisionRun c inst decision r
        (none,
          { client := { (r.client.record
              (.GetPolicy decision.ClusterNamespace (c.FullNameForPolicy inst))
                (some .NotFound)).record (.Create (newReplica c inst decision)) none with
              policies := r.client.policies ++ [newReplica c inst decision] }
            recorder := r.recorder ++ [propagatedEvent inst decision] })

/-- The calls logged between two states of the client. -/
def newCalls (before after : Client) : List LogEntry :=
  after.log.drop before.log.length

/-- Whether a call is a create. -/
def Call.isCreate : Call → Bool
  | .Create _ => true
  | _ => false

/-- Whether a call is an update. -/
def Call.isUpdate : Call → Bool
  | .Update _ => true
  | _ => false

/-- The object stored under `(ns, name)`, if any. -/
def Client.stored (cl : Client) (ns name : String) : Option Policy :=
  cl.policies.find? (Policy.hasKey ns name)

/-- Whether a call is a get. -/
def Call.isGet : Call → Bool
  | .GetPolicy _ _ => true
  | .GetPlacementRule _ _ => true
  | _ => false

/-- A logged call that failed, other than a get that reported not-found. -/
def LogEntry.fatal (x : LogEntry) : Bool :=
  match x.result with
  | none => false
  | some e => !(x.call.isGet && e.IsNotFound)

/-- The effect of one logged call on the stored policies: a call that returned an error has
none, a served create, update, delete or status update has the effect the client gives it. -/
def applyEntry (ps : List Policy) (x : LogEntry) : List Policy :=
  match x.result, x.call with
  | none, .Create obj => ps ++ [obj]
  | none, .Update obj => ps.map (fun p => if Policy.hasKey obj.Namespace obj.Name p then obj else p)
  | none, .Delete obj => ps.filter (fun p => !Policy.hasKey obj.Namespace obj.Name p)
  | none, .StatusUpdate obj =>
    ps.map (fun p => if Policy.hasKey obj.Namespace obj.Name p then { p with Status := obj.Status } else p)
  | _, _ => ps

/-- A run that returned `err` logged `calls`: without error no call failed fatally; with an
error the last call is the one that returned it and no call before it failed fatally. -/
def okTrace (err : Option StoreError) (calls : List LogEntry) : Prop :=
  match err with
  | none => ∀ x ∈ calls, x.fatal = false
  | some e => ∃ pre call, calls = pre ++ [⟨call, some e⟩] ∧ (∀ x ∈ pre, x.fatal = false) ∧
      (⟨call, some e⟩ : LogEntry).fatal = true

/-- The placement rule a logged call fetched, if the call is a get of a placement rule. -/
def LogEntry.ruleFetched (x : LogEntry) : Option (String × String) :=
  match x.call with
  | .GetPlacementRule ns name => some (ns, name)
  | _ => none

/-- Whether a logged call is the get of a policy, the first call of every `handleDecision`. -/
def LogEntry.isGetPolicy (x : LogEntry) : Bool :=
  match x.call with
  | .GetPolicy _ _ => true
  | _ => false

/-- The bindings of the root's namespace that have a subject naming the root, in store order. -/
def matchingBindings (c : Common) (inst : Policy) (cl : Client) : List PlacementBinding :=
  (cl.bindings.filter (fun pb => decide (pb.Namespace = inst.Namespace))).filter
    (fun pb => pb.Subjects.any (subjectMatches c inst))

/-- The decisions of the placement rule stored under `(ns, name)`, none when no rule is stored. -/
def decisionsOf (rules : List PlacementRule) (ns name : String) : List PlacementDecision :=
  match rules.find? (fun plr => decide (plr.Namespace = ns) && decide (plr.Name = name)) with
  | some plr => plr.Status.Decisions
  | none => []

/-- The replicas of a root among the stored policies: the objects stored under the root's
replica name `FullNameForPolicy`, in whatever namespace. -/
def replicasOf (c : Common) (inst : Policy) (ps : List Policy) : List Policy :=
  ps.filter (fun p => decide (p.Name = c.FullNameForPolicy inst))

/-- Whether a logged call is an update of the object stored under `(ns, name)`. -/
def LogEntry.updatesKey (ns name : String) (x : LogEntry) : Bool :=
  match x.call with
  | .Update obj => Policy.hasKey ns name obj
  | _ => false

/-- Whether a call is a delete. -/
def Call.isDelete : Call → Bool
  | .Delete _ => true
  | _ => false

/-- Whether a call is a status update. -/
def Call.isStatusUpdate : Call → Bool
  | .StatusUpdate _ => true
  | _ => false

/-- Whether a call is a list of policies. -/
def Call.isListPolicies : Call → Bool
  | .ListPolicies _ => true
  | _ => false

/-- A logged call that returned an error other than not-found. -/
def LogEntry.failed (x : LogEntry) : Bool :=
  match x.result with
  | none => false
  | some e => !e.IsNotFound

/-- The object a logged call asked to delete, if the call is a delete. -/
def LogEntry.deleted (x : LogEntry) : Option Policy :=
  match x.call with
  | .Delete obj => some obj
  | _ => none

/-- A clean-up run that returned `err` logged `calls`: without error no call returned an error
other than not-found; with an error the last call is the one that returned it, the error is not
not-found, and no call before it returned an error other than not-found. -/
def cleanupTrace (err : Option StoreError) (calls : List LogEntry) : Prop :=
  match err with
  | none => ∀ x ∈ calls, x.failed = false
  | some e => ∃ pre call, calls = pre ++ [⟨call, some e⟩] ∧ (∀ x ∈ pre, x.failed = false) ∧
      e.IsNotFound = false

/-- The effect of one successful `handleDecision` on the stored policies. -/
def applyDecision (c : Common) (inst : Policy) (ps : List Policy) (d : PlacementDecision) :
    List Policy :=
  match ps.find? (Policy.hasKey d.ClusterNamespace (c.FullNameForPolicy inst)) with
  | none => ps ++ [newReplica c inst d]
  | some p =>
    if Common.CompareSpecAndAnnotation inst p then ps
    else ps.map (fun q =>
      if Policy.hasKey d.ClusterNamespace (c.FullNameForPolicy inst) q then patched inst p else q)

/-- Whether `p` sits at the replica identity of one of the decisions `ds`. -/
def atHandledIdentity (c : Common) (inst : Policy) (ds : List PlacementDecision) (p : Policy) :
    Bool :=
  ds.any (fun d => Policy.hasKey d.ClusterNamespace (c.FullNameForPolicy inst) p)

/-! ## Sample objects -/

/-- Sample constants: the full name of a policy is `namespace.name`. -/
def exCommon : Common :=
  ⟨"policies", "Policy", "cluster-name", "cluster-namespace", "root-policy",
    fun p => p.Namespace ++ "." ++ p.Name⟩

/-- Sample root `ns1/pol-a`, enabled. -/
def exRoot : Policy :=
  ⟨"ns1", "pol-a", "7", ∅, ∅, ⟨false, "spec"⟩, ⟨"status"⟩⟩

/-- Sample decision for cluster `c1` in namespace `c1`. -/
def exDecision : PlacementDecision := ⟨"c1", "c1"⟩

/-- A reconciler over an empty store with no failure scheduled. -/
def exEmpty : ReconcilePolicy := ⟨⟨[], [], [], [], []⟩, []⟩

/-- An object stored at the replica identity of `exRoot` in `c1`, with the root's spec and
annotations but without any label. -/
def exForeign : Policy :=
  ⟨"c1", "ns1.pol-a", "3", ∅, ∅, ⟨false, "spec"⟩, ⟨""⟩⟩

/-- A reconciler whose store holds `exForeign` only. -/
def exForeignStore : ReconcilePolicy := ⟨⟨[exForeign], [], [], [], []⟩, []⟩

/-- A subject naming `exRoot`. -/
def exSubject : Subject := ⟨"policies", "Policy", "pol-a"⟩

/-- A binding of `exRoot` to `rule-1`. -/
def exBinding1 : PlacementBinding := ⟨"ns1", "pb1", ⟨"rule-1"⟩, [exSubject]⟩

/-- A binding of `exRoot` to `rule-2`. -/
def exBinding2 : PlacementBinding := ⟨"ns1", "pb2", ⟨"rule-2"⟩, [exSubject]⟩

/-- A reconciler over a store with one binding of `exRoot` to `rule-1`, whose decisions are
`c1/c1` and `c2/c1`: two targets in one cluster namespace. The fourth call will fail. -/
def exFailing : ReconcilePolicy :=
  ⟨⟨[], [exBinding1],
    [⟨"ns1", "rule-1", ⟨[⟨"c1", "c1"⟩, ⟨"c2", "c1"⟩]⟩⟩], [none, none, none, some .Conflict], []⟩, []⟩

/-- A reconciler over a store with one binding that names `exRoot` twice and refers to
`rule-1`, whose only decision is `c1/c1`. -/
def exTwoSubjects : ReconcilePolicy :=
  ⟨⟨[], [⟨"ns1", "pb", ⟨"rule-1"⟩, [exSubject, exSubject]⟩],
    [⟨"ns1", "rule-1", ⟨[⟨"c1", "c1"⟩]⟩⟩], [], []⟩, []⟩

/-- A reconciler over a store with two bindings of `exRoot`, the first to `rule-1` with the
decision `c1/c1`, the second to `rule-2` with the decision `c2/c2`. -/
def exTwoBindings : ReconcilePolicy :=
  ⟨⟨[], [exBinding1, exBinding2],
    [⟨"ns1", "rule-1", ⟨[⟨"c1", "c1"⟩]⟩⟩, ⟨"ns1", "rule-2", ⟨[⟨"c2", "c2"⟩]⟩⟩], [], []⟩, []⟩

/-- A pass state over a store in which `rule-1` is missing and `rule-2` has the decision `c2/c2`. -/
def exMissingRule : Pass :=
  ⟨⟨⟨[], [exBinding1, exBinding2], [⟨"ns1", "rule-2", ⟨[⟨"c2", "c2"⟩]⟩⟩], [], []⟩, []⟩, [], []⟩

/-- Sample root `ns1/pol-a`, disabled. -/
def exDisabledRoot : Policy :=
  ⟨"ns1", "pol-a", "8", ∅, ∅, ⟨true, "spec"⟩, ⟨"status"⟩⟩

/-- A replica of the sample root in `c1`, as `handleDecision` creates it. -/
def exReplica : Policy :=
  ⟨"c1", "ns1.pol-a", "", Finmap.singleton "root-policy" "ns1.pol-a", ∅, ⟨false, "spec"⟩,
    ⟨"status"⟩⟩

/-- A reconciler whose store holds the disabled sample root and its replica in `c1`. -/
def exDisabledStore : ReconcilePolicy :=
  ⟨⟨[exDisabledRoot, exReplica], [], [], [], []⟩, []⟩

/-- A reconciler over a store with one binding of `exRoot` to `rule-1`, whose decisions are
`c1/c1` and `c2/c1`: two targets in one cluster namespace. No policy is stored. -/
def exTwoTargets : ReconcilePolicy :=
  ⟨⟨[], [exBinding1], [⟨"ns1", "rule-1", ⟨[⟨"c1", "c1"⟩, ⟨"c2", "c1"⟩]⟩⟩], [], []⟩, []⟩

/-- A replica of `exRoot` in `c1` whose spec was changed behind the propagator's back. -/
def exDrifted : Policy :=
  ⟨"c1", "ns1.pol-a", "5", Finmap.singleton "root-policy" "ns1.pol-a", ∅, ⟨false, "tampered"⟩,
    ⟨"status"⟩⟩

/-- The store of `exTwoTargets` with the drifted replica in it. -/
def exDriftedStore : ReconcilePolicy :=
  ⟨⟨[exDrifted], [exBinding1], [⟨"ns1", "rule-1", ⟨[⟨"c1", "c1"⟩, ⟨"c2", "c1"⟩]⟩⟩], [], []⟩, []⟩

/-- The store of `exDisabledStore` with a failure scheduled for the second call, the delete. -/
def exDisabledFailing : ReconcilePolicy :=
  ⟨⟨[exDisabledRoot, exReplica], [], [], [none, some .Conflict], []⟩, []⟩

/-- A client whose store is empty, so that a delete of `exReplica` reports not-found. -/
def exEmptyClient : Client := ⟨[], [], [], [], []⟩

/-- A replica of `exRoot` in namespace `c9`, which no decision of the sample rules names,
with a spec of its own. -/
def exStale : Policy :=
  ⟨"c9", "ns1.pol-a", "2", Finmap.singleton "root-policy" "ns1.pol-a", ∅, ⟨false, "stale"⟩,
    ⟨"status"⟩⟩

/-- The store of `exTwoTargets` with the stale replica in it. -/
def exStaleStore : ReconcilePolicy :=
  ⟨⟨[exStale], [exBinding1], [⟨"ns1", "rule-1", ⟨[⟨"c1", "c1"⟩, ⟨"c2", "c1"⟩]⟩⟩], [], []⟩, []⟩

/-- The scenario store for given constants: one binding in `ns1` whose subject names the root
`pol-a` and which refers to `rule-1`; `rule-1` has the single decision `c1/c1`; no policy is
stored and no failure is scheduled. -/
def exScenario (c : Common) : ReconcilePolicy :=
  ⟨⟨[], [⟨"ns1", "pb", ⟨"rule-1"⟩, [⟨c.Group, c.Kind, "pol-a"⟩]⟩],
    [⟨"ns1", "rule-1", ⟨[⟨"c1", "c1"⟩]⟩⟩], [], []⟩, []⟩

/-- A replica of `exRoot` for the target `c2/c1`: stored in namespace `c1`, labelled with the
cluster name `c2`, and with a spec that differs from the root's. -/
def exOtherCluster : Policy :=
  ⟨"c1", "ns1.pol-a", "4",
    (((∅ : StrMap).insert "cluster-name" "c2").insert "cluster-namespace" "c1").insert
      "root-policy" "ns1.pol-a",
    ∅, ⟨false, "tampered"⟩, ⟨"status"⟩⟩

/-- A reconciler whose store holds the replica for `c2/c1` while the only decision of the rule
bound to `exRoot` is `c1/c1`. -/
def exOtherClusterStore : ReconcilePolicy :=
  ⟨⟨[exOtherCluster], [exBinding1], [⟨"ns1", "rule-1", ⟨[⟨"c1", "c1"⟩]⟩⟩], [], []⟩, []⟩

/-! ## Basic facts about the client -/

theorem fault_ne_notFound (cl : Client) (e : StoreError) (h : cl.fault = some e) :
    e.IsNotFound = false := by
  unfold Client.fault at h
  split at h
  · rename_i f _ _
    cases f <;> simp [Fault.toError] at h <;> subst h <;> rfl
  · simp at h

theorem hasKey_iff (ns name : String) (p : Policy) :
    Policy.hasKey ns name p = true ↔ p.Namespace = ns ∧ p.Name = name := by
  simp [Policy.hasKey]

theorem compare_iff (a b : Policy) :
    Common.CompareSpecAndAnnotation a b = true ↔ a.Annotations = b.Annotations ∧ a.Spec = b.Spec := by
  simp [Common.CompareSpecAndAnnotation]

theorem compare_newReplica (c : Common) (inst : Policy) (decision : PlacementDecision) :
    Common.CompareSpecAndAnnotation inst (newReplica c inst decision) = true := by
  simp [Common.CompareSpecAndAnnotation, newReplica]

theorem compare_patched (inst p : Policy) :
    Common.CompareSpecAndAnnotation inst (patched inst p) = true := by
  simp [Common.CompareSpecAndAnnotation, patched]

theorem record_policies (cl : Client) (call : Call) (res : Option StoreError) :
    (cl.record call res).policies = cl.policies := rfl

/-- Every call of `handleDecision` runs in one of the six ways of `DecisionRun`. -/
theorem handleDecision_run (c : Common) (inst : Policy) (decision : PlacementDecision)
    (r : ReconcilePolicy) : DecisionRun c inst decision r (handleDecision c inst decision r) := by
  unfold handleDecision Client.GetPolicy
  cases hf : r.client.fault with
  | some e =>
    have hne := fault_ne_notFound _ _ hf
    simp only [hne]
    exact DecisionRun.getFailed e hne hf
  | none =>
    cases hp : r.client.policies.find?
        (Policy.hasKey decision.ClusterNamespace (c.FullNameForPolicy inst)) with
    | some p =>
      simp only
      unfold compareAndPatch
      cases hcmp : Common.CompareSpecAndAnnotation inst p with
      | true =>
        simp only [Bool.not_true]
        exact DecisionRun.upToDate p hf hp hcmp
      | false =>
        have hk := List.find?_some hp
        have hmem := List.mem_of_find?_eq_some hp
        have hany : r.client.policies.any
            (Policy.hasKey decision.ClusterNamespace (c.FullNameForPolicy inst)) = true :=
          List.any_eq_true.mpr ⟨p, hmem, hk⟩
        have hkey := (hasKey_iff _ _ _).mp hk
        simp only [Bool.not_false, if_true]
        unfold Client.Update
        cases hf2 : (r.client.record
            (.GetPolicy decision.ClusterNamespace (c.FullNameForPolicy inst)) none).fault with
        | some e =>
          simp only
          exact DecisionRun.updateFailed p e hf hp hcmp hf2
        | none =>
          have := @DecisionRun.updated c inst decision r p hf hp hcmp hf2
          simpa [patched, record_policies, hkey.1, hkey.2, hany] using this
    | none =>
      simp only [StoreError.IsNotFound, if_true]
      unfold Client.Create
      cases hf2 : (r.client.record (.GetPolicy decision.ClusterNamespace (c.FullNameForPolicy inst))
          (some .NotFound)).fault with
      | some e =>
        simp only
        exact DecisionRun.createFailed e hf hp hf2
      | none =>
        have hany : r.client.policies.any
            (Policy.hasKey decision.ClusterNamespace (c.FullNameForPolicy inst)) = false := by
          rw [List.find?_eq_none] at hp
          simpa [List.any_eq_false] using hp
        have hnr : (newReplica c inst decision).Namespace = decision.ClusterNamespace ∧
            (newReplica c inst decision).Name = c.FullNameForPolicy inst := ⟨rfl, rfl⟩
        have := @DecisionRun.created c inst decision r hf hp hf2
        simp only [record_policies, hnr.1, hnr.2, hany, Bool.false_eq_true, if_false]
        unfold compareAndPatch
        simp only [compare_newReplica, Bool.not_true, Bool.false_eq_true, if_false]
        exact this

/-! ## An induction principle for one pass over the bindings -/

/-- The three ways a get of a placement rule can run. -/
theorem getPlacementRule_cases (cl : Client) (ns name : String) :
    (∃ e, e.IsNotFound = false ∧ cl.fault = some e ∧
      cl.GetPlacementRule ns name =
        (some e, PlacementRule.zero, cl.record (.GetPlacementRule ns name) (some e))) ∨
    (∃ plr, cl.fault = none ∧
      cl.rules.find? (fun plr => decide (plr.Namespace = ns) && decide (plr.Name = name)) = some plr ∧
      cl.GetPlacementRule ns name = (none, plr, cl.record (.GetPlacementRule ns name) none)) ∨
    (cl.fault = none ∧
      cl.rules.find? (fun plr => decide (plr.Namespace = ns) && decide (plr.Name = name)) = none ∧
      cl.GetPlacementRule ns name =
        (some .NotFound, PlacementRule.zero,
          cl.record (.GetPlacementRule ns name) (some .NotFound))) := by
  unfold Client.GetPlacementRule
  cases hf : cl.fault with
  | some e => exact Or.inl ⟨e, fault_ne_notFound _ _ hf, rfl, rfl⟩
  | none =>
    cases hp : cl.rules.find? (fun plr => decide (plr.Namespace = ns) && decide (plr.Name = name)) with
    | some plr => exact Or.inr (Or.inl ⟨plr, rfl, rfl, rfl⟩)
    | none => exact Or.inr (Or.inr ⟨rfl, rfl, rfl⟩)

/-- Induction over the decisions of one rule: `M` holds of the states reached without error,
`Q` of the outcome. -/
theorem decisionLoop_induction (c : Common) (inst : Policy) (M : Pass → Prop)
    (Q : Option StoreError × Pass → Prop)
    (hdone : ∀ st, M st → Q (none, st))
    (hdecOk : ∀ st d r, M st → handleDecision c inst d st.r = (none, r) →
      M { st with r := r, allDecisions := st.allDecisions ++ [d] })
    (hdecErr : ∀ st d e r, M st → handleDecision c inst d st.r = (some e, r) →
      Q (some e, { st with r := r, allDecisions := st.allDecisions ++ [d] })) :
    ∀ (ds : List PlacementDecision) (st : Pass), M st → Q (decisionLoop c inst ds st) := by
  intro ds
  induction ds with
  | nil => intro st h; exact hdone st h
  | cons d rest ih =>
    intro st h
    unfold decisionLoop
    cases hd : handleDecision c inst d st.r with
    | mk err r =>
      cases err with
      | some e => exact hdecErr st d e r h hd
      | none => exact ih _ (hdecOk st d r h hd)

/-- Induction over one pass: `M` holds of the states reached without error, `Q` of the outcome. -/
theorem bindingLoop_induction (c : Common) (inst : Policy) (M : Pass → Prop)
    (Q : Option StoreError × Pass → Prop)
    (hdone : ∀ st, M st → Q (none, st))
    (hfetchErr : ∀ st (pb : PlacementBinding) e, M st → e.IsNotFound = false →
      st.r.client.fault = some e →
      Q (some e, { st with r := { st.r with client := (st.r.client.record
        (.GetPlacementRule inst.Namespace pb.PlacementRef.Name) (some e)) } }))
    (hfetchOk : ∀ st (pb : PlacementBinding) res plrName, M st →
      (res = none ∨ res = some StoreError.NotFound) →
      M { st with
          r := { st.r with client := (st.r.client.record
            (.GetPlacementRule inst.Namespace pb.PlacementRef.Name) res) }
          placement := st.placement ++ [⟨pb.Name, plrName⟩] })
    (hdecOk : ∀ st d r, M st → handleDecision c inst d st.r = (none, r) →
      M { st with r := r, allDecisions := st.allDecisions ++ [d] })
    (hdecErr : ∀ st d e r, M st → handleDecision c inst d st.r = (some e, r) →
      Q (some e, { st with r := r, allDecisions := st.allDecisions ++ [d] })) :
    ∀ (pbs : List PlacementBinding) (st : Pass), M st → Q (bindingLoop c inst pbs st) := by
  have hsub : ∀ (pb : PlacementBinding) (Q' : Option StoreError × Pass → Prop),
      (∀ st, M st → Q' (none, st)) →
      (∀ e st, Q (some e, st) → Q' (some e, st)) →
      ∀ (ss : List Subject) (st : Pass), M st → Q' (subjectLoop c inst pb ss st) := by
    intro pb Q' hnone hsome ss
    induction ss with
    | nil => intro st h; exact hnone st h
    | cons s rest ih =>
      intro st h
      unfold subjectLoop
      by_cases hm : subjectMatches c inst s = true
      · simp only [hm, if_true]
        rcases getPlacementRule_cases st.r.client inst.Namespace pb.PlacementRef.Name with
          ⟨e, hne, hf, heq⟩ | ⟨plr, hf, hp, heq⟩ | ⟨hf, hp, heq⟩
        · rw [heq]
          simp only [Option.isSome_some, Option.any_some, hne, Bool.not_false, Bool.and_self, if_true]
          exact hsome _ _ (hfetchErr st pb e h hne hf)
        · rw [heq]
          simp only [Option.isSome_none, Bool.false_and, Bool.false_eq_true, if_false]
          exact decisionLoop_induction c inst M Q' hnone hdecOk
            (fun st d e r hM hd => hsome _ _ (hdecErr st d e r hM hd)) _ _
            (hfetchOk st pb none plr.Name h (Or.inl rfl))
        · rw [heq]
          simp only [Option.isSome_some, Option.any_some, StoreError.IsNotFound, Bool.not_true,
            Bool.and_false, Bool.false_eq_true, if_false]
          exact decisionLoop_induction c inst M Q' hnone hdecOk
            (fun st d e r hM hd => hsome _ _ (hdecErr st d e r hM hd)) _ _
            (hfetchOk st pb (some .NotFound) PlacementRule.zero.Name h (Or.inr rfl))
      · simp only [hm, Bool.false_eq_true, if_false]
        exact ih st h
  intro pbs
  induction pbs with
  | nil => intro st h; exact hdone st h
  | cons pb rest ih =>
    intro st h
    unfold bindingLoop
    have := hsub pb (fun o => match o with
      | (some e, st1) => Q (some e, st1)
      | (none, st1) => M st1) (fun st hM => hM) (fun e st hQ => hQ) pb.Subjects st h
    cases hs : subjectLoop c inst pb pb.Subjects st with
    | mk err st1 =>
      rw [hs] at this
      cases err with
      | some e => exact this
      | none => exact ih st1 this

/-! ## `handleDecision` -/

theorem newCalls_append (cl cl' : Client) (calls : List LogEntry)
    (h : cl'.log = cl.log ++ calls) : newCalls cl cl' = calls := by
  simp [newCalls, h]

theorem find?_replace (ps : List Policy) (ns name : String) (p p' : Policy)
    (hp : ps.find? (Policy.hasKey ns name) = some p) (hk : Policy.hasKey ns name p' = true) :
    (ps.map (fun q => if Policy.hasKey ns name q then p' else q)).find? (Policy.hasKey ns name)
      = some p' := by
  induction ps with
  | nil => simp at hp
  | cons q rest ih =>
    by_cases hq : Policy.hasKey ns name q = true
    · simp [List.find?, hq, hk]
    · simp only [Bool.not_eq_true] at hq
      have hp' : rest.find? (Policy.hasKey ns name) = some p := by
        simpa [List.find?, hq] using hp
      simp only [List.map_cons, hq, Bool.false_eq_true, if_false, List.find?]
      exact ih hp'

theorem find?_append_new (ps : List Policy) (ns name : String) (p' : Policy)
    (hp : ps.find? (Policy.hasKey ns name) = none) (hk : Policy.hasKey ns name p' = true) :
    (ps ++ [p']).find? (Policy.hasKey ns name) = some p' := by
  simp [List.find?_append, hp, List.find?, hk]

theorem hasKey_newReplica (c : Common) (inst : Policy) (d : PlacementDecision) :
    Policy.hasKey d.ClusterNamespace (c.FullNameForPolicy inst) (newReplica c inst d) = true := by
  simp [Policy.hasKey, newReplica]

theorem hasKey_patched (ns name : String) (inst p : Policy) (h : Policy.hasKey ns name p = true) :
    Policy.hasKey ns name (patched inst p) = true := by
  simpa [Policy.hasKey, patched] using h

/-- After a successful `handleDecision` the replica identity holds an object whose spec and
annotations are the root's. -/
theorem handleDecision_ok_stored (c : Common) (inst : Policy) (d : PlacementDecision)
    (r r1 : ReconcilePolicy) (h : handleDecision c inst d r = (none, r1)) :
    ∃ p, r1.client.stored d.ClusterNamespace (c.FullNameForPolicy inst) = some p ∧
      Common.CompareSpecAndAnnotation inst p = true := by
  have hrun := handleDecision_run c inst d r
  rw [h] at hrun
  cases hrun with
  | upToDate p hf hp heq => exact ⟨p, by simpa [Client.stored, record_policies] using hp, heq⟩
  | updated p hf hp hne hf2 =>
    exact ⟨patched inst p, find?_replace _ _ _ _ _ hp (hasKey_patched _ _ _ _ (List.find?_some hp)),
      compare_patched _ _⟩
  | created hf hp hf2 =>
    exact ⟨newReplica c inst d, find?_append_new _ _ _ _ hp (hasKey_newReplica _ _ _),
      compare_newReplica _ _ _⟩

/-- C3: a second call of `handleDecision` right after a successful one, with the same root and
decision, issues a single call, the get of the replica: no create, no update, and the stored
objects are left as they are. -/
theorem handleDecision_idempotent (c : Common) (inst : Policy) (d : PlacementDecision)
    (r : ReconcilePolicy) (hok : (handleDecision c inst d r).1 = none) :
    (∃ res, newCalls (handleDecision c inst d r).2.client
        (handleDecision c inst d (handleDecision c inst d r).2).2.client =
          [⟨.GetPolicy d.ClusterNamespace (c.FullNameForPolicy inst), res⟩]) ∧
      (∀ x ∈ newCalls (handleDecision c inst d r).2.client
        (handleDecision c inst d (handleDecision c inst d r).2).2.client,
          x.call.isCreate = false ∧ x.call.isUpdate = false) ∧
      (handleDecision c inst d (handleDecision c inst d r).2).2.client.policies =
        (handleDecision c inst d r).2.client.policies := by
  obtain ⟨p, hp, hcmp⟩ := handleDecision_ok_stored c inst d r (handleDecision c inst d r).2
    (Prod.ext hok rfl)
  generalize (handleDecision c inst d r).2 = r1 at hp ⊢
  have hrun := handleDecision_run c inst d r1
  generalize handleDecision c inst d r1 = out at hrun
  unfold Client.stored at hp
  cases hrun with
  | getFailed e hne hf =>
    refine ⟨⟨some e, newCalls_append _ _ _ rfl⟩, ?_, rfl⟩
    rw [newCalls_append _ _ _ rfl]
    simp [Call.isCreate, Call.isUpdate]
  | upToDate p hf hp heq =>
    refine ⟨⟨none, newCalls_append _ _ _ rfl⟩, ?_, rfl⟩
    rw [newCalls_append _ _ _ rfl]
    simp [Call.isCreate, Call.isUpdate]
  | updateFailed q e hf hq hne hf2 =>
    rw [hp] at hq; cases hq; rw [hcmp] at hne; cases hne
  | updated q hf hq hne hf2 =>
    rw [hp] at hq; cases hq; rw [hcmp] at hne; cases hne
  | createFailed e hf hq hf2 => rw [hp] at hq; cases hq
  | created hf hq hf2 => rw [hp] at hq; cases hq

/-- Witness for C3 on the sample root over an empty store. -/
theorem handleDecision_idempotent_witness :
    (handleDecision exCommon exRoot exDecision exEmpty).1 = none ∧
    ((∃ res, newCalls (handleDecision exCommon exRoot exDecision exEmpty).2.client
        (handleDecision exCommon exRoot exDecision
          (handleDecision exCommon exRoot exDecision exEmpty).2).2.client =
          [⟨.GetPolicy exDecision.ClusterNamespace (exCommon.FullNameForPolicy exRoot), res⟩]) ∧
      (∀ x ∈ newCalls (handleDecision exCommon exRoot exDecision exEmpty).2.client
        (handleDecision exCommon exRoot exDecision
          (handleDecision exCommon exRoot exDecision exEmpty).2).2.client,
          x.call.isCreate = false ∧ x.call.isUpdate = false) ∧
      (handleDecision exCommon exRoot exDecision
          (handleDecision exCommon exRoot exDecision exEmpty).2).2.client.policies =
        (handleDecision exCommon exRoot exDecision exEmpty).2.client.policies) :=
  ⟨by decide, handleDecision_idempotent exCommon exRoot exDecision exEmpty (by decide)⟩

/-- C5: when nothing is stored at the replica identity, a successful `handleDecision` issues the
get that reports not-found and then exactly one create, and no update; the created object is the
root with namespace, name and resource version overwritten and the three labels set on top of the
root's labels (the label keys being pairwise different), spec, annotations and status included. -/
theorem handleDecision_creates_copy (c : Common) (inst : Policy) (d : PlacementDecision)
    (r : ReconcilePolicy)
    (hkeys : c.ClusterNameLabel ≠ c.ClusterNamespaceLabel ∧ c.ClusterNameLabel ≠ c.RootPolicyLabel ∧
      c.ClusterNamespaceLabel ≠ c.RootPolicyLabel)
    (habsent : r.client.stored d.ClusterNamespace (c.FullNameForPolicy inst) = none)
    (hok : (handleDecision c inst d r).1 = none) :
    ∃ obj : Policy,
      newCalls r.client (handleDecision c inst d r).2.client =
        [⟨.GetPolicy d.ClusterNamespace (c.FullNameForPolicy inst), some .NotFound⟩,
          ⟨.Create obj, none⟩] ∧
      (handleDecision c inst d r).2.client.policies = r.client.policies ++ [obj] ∧
      obj.Namespace = d.ClusterNamespace ∧ obj.Name = c.FullNameForPolicy inst ∧
      obj.ResourceVersion = "" ∧
      obj.Spec = inst.Spec ∧ obj.Annotations = inst.Annotations ∧ obj.Status = inst.Status ∧
      obj.Labels.lookup c.ClusterNameLabel = some d.ClusterName ∧
      obj.Labels.lookup c.ClusterNamespaceLabel = some d.ClusterNamespace ∧
      obj.Labels.lookup c.RootPolicyLabel = some (c.FullNameForPolicy inst) ∧
      (∀ k, k ≠ c.ClusterNameLabel → k ≠ c.ClusterNamespaceLabel → k ≠ c.RootPolicyLabel →
        obj.Labels.lookup k = inst.Labels.lookup k) := by
  have hrun := handleDecision_run c inst d r
  generalize handleDecision c inst d r = out at hrun hok
  unfold Client.stored at habsent
  cases hrun with
  | getFailed e hne hf => cases hok
  | upToDate p hf hp heq => rw [habsent] at hp; cases hp
  | updateFailed q e hf hq hne hf2 => cases hok
  | updated q hf hq hne hf2 => rw [habsent] at hq; cases hq
  | createFailed e hf hq hf2 => cases hok
  | created hf hq hf2 =>
    refine ⟨newReplica c inst d, newCalls_append _ _ _ ?_, rfl, rfl, rfl, rfl, rfl, rfl, rfl,
      ?_, ?_, ?_, ?_⟩
    · simp [Client.record]
    · simp [newReplica, Finmap.lookup_insert_of_ne, hkeys.1, hkeys.2.1]
    · simp [newReplica, Finmap.lookup_insert_of_ne, hkeys.2.2]
    · simp [newReplica]
    · intro k h1 h2 h3
      simp [newReplica, Finmap.lookup_insert_of_ne, h1, h2, h3]

/-- Witness for C5 on the sample root over an empty store. -/
theorem handleDecision_creates_copy_witness :
    ∃ obj : Policy,
      newCalls exEmpty.client (handleDecision exCommon exRoot exDecision exEmpty).2.client =
        [⟨.GetPolicy exDecision.ClusterNamespace (exCommon.FullNameForPolicy exRoot),
            some .NotFound⟩, ⟨.Create obj, none⟩] ∧
      (handleDecision exCommon exRoot exDecision exEmpty).2.client.policies =
        exEmpty.client.policies ++ [obj] ∧
      obj.Namespace = exDecision.ClusterNamespace ∧ obj.Name = exCommon.FullNameForPolicy exRoot ∧
      obj.ResourceVersion = "" ∧
      obj.Spec = exRoot.Spec ∧ obj.Annotations = exRoot.Annotations ∧ obj.Status = exRoot.Status ∧
      obj.Labels.lookup exCommon.ClusterNameLabel = some exDecision.ClusterName ∧
      obj.Labels.lookup exCommon.ClusterNamespaceLabel = some exDecision.ClusterNamespace ∧
      obj.Labels.lookup exCommon.RootPolicyLabel = some (exCommon.FullNameForPolicy exRoot) ∧
      (∀ k, k ≠ exCommon.ClusterNameLabel → k ≠ exCommon.ClusterNamespaceLabel →
        k ≠ exCommon.RootPolicyLabel → obj.Labels.lookup k = exRoot.Labels.lookup k) :=
  handleDecision_creates_copy exCommon exRoot exDecision exEmpty
    ⟨by decide, by decide, by decide⟩ rfl (by decide)

/-- C8, as stated, fails: an object without the owning-root label stored at the replica identity
is left without it by a successful `handleDecision`, and the label selection of the clean-up
does not return it. -/
theorem handleDecision_label_counterexample :
    (handleDecision exCommon exRoot exDecision exForeignStore).1 = none ∧
    ((handleDecision exCommon exRoot exDecision exForeignStore).2.client.stored
      exDecision.ClusterNamespace (exCommon.FullNameForPolicy exRoot)).map
        (fun p => p.Labels.lookup exCommon.RootPolicyLabel) = some none ∧
    ((handleDecision exCommon exRoot exDecision exForeignStore).2.client.policies.filter
      (matchesLabels (exCommon.LabelsForRootPolicy exRoot))).length = 0 := by
  decide

theorem matchesLabels_root (c : Common) (inst p : Policy) :
    matchesLabels (c.LabelsForRootPolicy inst) p = true ↔
      p.Labels.lookup c.RootPolicyLabel = some (c.FullNameForPolicy inst) := by
  simp [matchesLabels, Common.LabelsForRootPolicy]

/-- C8, amended: when nothing is stored at the replica identity before the call, or the object
stored there already carries the owning-root label of the root, then after a successful
`handleDecision` the object stored there carries that label and is returned by the label
selection of the clean-up. -/
theorem handleDecision_owner_label (c : Common) (inst : Policy) (d : PlacementDecision)
    (r : ReconcilePolicy)
    (hpre : ∀ p, r.client.stored d.ClusterNamespace (c.FullNameForPolicy inst) = some p →
      p.Labels.lookup c.RootPolicyLabel = some (c.FullNameForPolicy inst))
    (hok : (handleDecision c inst d r).1 = none) :
    ∃ p, (handleDecision c inst d r).2.client.stored d.ClusterNamespace
        (c.FullNameForPolicy inst) = some p ∧
      p.Labels.lookup c.RootPolicyLabel = some (c.FullNameForPolicy inst) ∧
      p ∈ (handleDecision c inst d r).2.client.policies.filter
        (matchesLabels (c.LabelsForRootPolicy inst)) := by
  have hrun := handleDecision_run c inst d r
  generalize handleDecision c inst d r = out at hrun hok
  have key : ∀ p, out.2.client.stored d.ClusterNamespace (c.FullNameForPolicy inst) = some p →
      p.Labels.lookup c.RootPolicyLabel = some (c.FullNameForPolicy inst) →
      ∃ p, out.2.client.stored d.ClusterNamespace (c.FullNameForPolicy inst) = some p ∧
        p.Labels.lookup c.RootPolicyLabel = some (c.FullNameForPolicy inst) ∧
        p ∈ out.2.client.policies.filter (matchesLabels (c.LabelsForRootPolicy inst)) := by
    intro p hp hl
    refine ⟨p, hp, hl, ?_⟩
    rw [List.mem_filter]
    exact ⟨List.mem_of_find?_eq_some hp, (matchesLabels_root c inst p).mpr hl⟩
  unfold Client.stored at hpre
  cases hrun with
  | getFailed e hne hf => cases hok
  | upToDate p hf hp heq => exact key p hp (hpre p hp)
  | updateFailed q e hf hq hne hf2 => cases hok
  | updated q hf hq hne hf2 =>
    exact key (patched inst q)
      (find?_replace _ _ _ _ _ hq (hasKey_patched _ _ _ _ (List.find?_some hq))) (hpre q hq)
  | createFailed e hf hq hf2 => cases hok
  | created hf hq hf2 =>
    exact key (newReplica c inst d) (find?_append_new _ _ _ _ hq (hasKey_newReplica _ _ _))
      (by simp [newReplica])

/-- Witness for the amended C8 on the sample root over an empty store. -/
theorem handleDecision_owner_label_witness :
    ∃ p, (handleDecision exCommon exRoot exDecision exEmpty).2.client.stored
        exDecision.ClusterNamespace (exCommon.FullNameForPolicy exRoot) = some p ∧
      p.Labels.lookup exCommon.RootPolicyLabel = some (exCommon.FullNameForPolicy exRoot) ∧
      p ∈ (handleDecision exCommon exRoot exDecision exEmpty).2.client.policies.filter
        (matchesLabels (exCommon.LabelsForRootPolicy exRoot)) :=
  handleDecision_owner_label exCommon exRoot exDecision exEmpty
    (fun p hp => by simp [Client.stored, exEmpty] at hp) (by decide)

/-! ## Error propagation in `handleRootPolicy` -/

theorem eq_last_of_not_mem {α : Type} (pre' : List α) (y : α) (pre : List α) (x : α)
    (post : List α) (h : pre' ++ [y] = pre ++ x :: post) (hx : x ∉ pre') :
    post = [] ∧ x = y := by
  rcases List.eq_nil_or_concat post with hnil | ⟨post', z, hz⟩
  · subst hnil
    have h' : pre' ++ [y] = pre ++ [x] := h
    have := List.append_inj' h' rfl
    exact ⟨rfl, by simpa using this.2.symm⟩
  · subst hz
    have h' : pre' ++ [y] = (pre ++ x :: post') ++ [z] := by simpa using h
    have := (List.append_inj' h' rfl).1
    exact absurd (by rw [this]; simp) hx

/-- The trace invariant of one pass: relative to the client `cl0` the pass started from. -/
theorem bindingLoop_trace (c : Common) (inst : Policy) (cl0 : Client)
    (pbs : List PlacementBinding) (st : Pass)
    (h : ∃ calls, st.r.client.log = cl0.log ++ calls ∧ (∀ x ∈ calls, x.fatal = false) ∧
      st.r.client.policies = calls.foldl applyEntry cl0.policies) :
    ∃ calls, (bindingLoop c inst pbs st).2.r.client.log = cl0.log ++ calls ∧
      okTrace (bindingLoop c inst pbs st).1 calls ∧
      (bindingLoop c inst pbs st).2.r.client.policies = calls.foldl applyEntry cl0.policies := by
  refine bindingLoop_induction c inst
    (fun st => ∃ calls, st.r.client.log = cl0.log ++ calls ∧ (∀ x ∈ calls, x.fatal = false) ∧
      st.r.client.policies = calls.foldl applyEntry cl0.policies)
    (fun o => ∃ calls, o.2.r.client.log = cl0.log ++ calls ∧ okTrace o.1 calls ∧
      o.2.r.client.policies = calls.foldl applyEntry cl0.policies)
    ?_ ?_ ?_ ?_ ?_ pbs st h
  · rintro st ⟨calls, hl, hb, hp⟩
    exact ⟨calls, hl, hb, hp⟩
  · rintro st pb e ⟨calls, hl, hb, hp⟩ hne hf
    refine ⟨calls ++ [⟨.GetPlacementRule inst.Namespace pb.PlacementRef.Name, some e⟩], ?_,
      ⟨calls, _, rfl, hb, ?_⟩, ?_⟩
    · simp [Client.record, hl]
    · simp [LogEntry.fatal, hne]
    · simp [record_policies, hp, List.foldl_append, applyEntry]
  · rintro st pb res plrName ⟨calls, hl, hb, hp⟩ hres
    refine ⟨calls ++ [⟨.GetPlacementRule inst.Namespace pb.PlacementRef.Name, res⟩], ?_, ?_, ?_⟩
    · simp [Client.record, hl]
    · intro x hx
      rw [List.mem_append] at hx
      rcases hx with hx | hx
      · exact hb x hx
      · simp only [List.mem_singleton] at hx
        subst hx
        rcases hres with rfl | rfl <;> simp [LogEntry.fatal, Call.isGet, StoreError.IsNotFound]
    · rcases hres with rfl | rfl <;> simp [record_policies, hp, List.foldl_append, applyEntry]
  · rintro st d r ⟨calls, hl, hb, hp⟩ hd
    have hrun := handleDecision_run c inst d st.r
    rw [hd] at hrun
    cases hrun with
    | upToDate p hf hq heq =>
      refine ⟨calls ++ [⟨.GetPolicy d.ClusterNamespace (c.FullNameForPolicy inst), none⟩], ?_, ?_, ?_⟩
      · simp [Client.record, hl]
      · intro x hx
        rw [List.mem_append] at hx
        rcases hx with hx | hx
        · exact hb x hx
        · simp only [List.mem_singleton] at hx
          subst hx; rfl
      · simp [record_policies, hp, List.foldl_append, applyEntry]
    | updated p hf hq hne hf2 =>
      have hk := (hasKey_iff _ _ _).mp (List.find?_some hq)
      refine ⟨calls ++ [⟨.GetPolicy d.ClusterNamespace (c.FullNameForPolicy inst), none⟩,
        ⟨.Update (patched inst p), none⟩], ?_, ?_, ?_⟩
      · simp [Client.record, hl]
      · intro x hx
        rw [List.mem_append] at hx
        rcases hx with hx | hx
        · exact hb x hx
        · simp only [List.mem_cons, List.mem_singleton, List.not_mem_nil, or_false] at hx
          rcases hx with rfl | rfl <;> rfl
      · simp [hp, List.foldl_append, applyEntry, patched, hk.1, hk.2]
    | created hf hq hf2 =>
      refine ⟨calls ++ [⟨.GetPolicy d.ClusterNamespace (c.FullNameForPolicy inst), some .NotFound⟩,
        ⟨.Create (newReplica c inst d), none⟩], ?_, ?_, ?_⟩
      · simp [Client.record, hl]
      · intro x hx
        rw [List.mem_append] at hx
        rcases hx with hx | hx
        · exact hb x hx
        · simp only [List.mem_cons, List.mem_singleton, List.not_mem_nil, or_false] at hx
          rcases hx with rfl | rfl <;> simp [LogEntry.fatal, Call.isGet, StoreError.IsNotFound]
      · simp [hp, List.foldl_append, applyEntry]
  · rintro st d e r ⟨calls, hl, hb, hp⟩ hd
    have hrun := handleDecision_run c inst d st.r
    rw [hd] at hrun
    cases hrun with
    | getFailed e hne hf =>
      refine ⟨calls ++ [⟨.GetPolicy d.ClusterNamespace (c.FullNameForPolicy inst), some e⟩], ?_,
        ⟨calls, _, rfl, hb, ?_⟩, ?_⟩
      · simp [Client.record, hl]
      · simp [LogEntry.fatal, hne]
      · simp [record_policies, hp, List.foldl_append, applyEntry]
    | updateFailed p e hf hq hne hf2 =>
      refine ⟨calls ++ [⟨.GetPolicy d.ClusterNamespace (c.FullNameForPolicy inst), none⟩,
        ⟨.Update (patched inst p), some e⟩], ?_,
        ⟨calls ++ [⟨.GetPolicy d.ClusterNamespace (c.FullNameForPolicy inst), none⟩],
          .Update (patched inst p), ?_, ?_, ?_⟩, ?_⟩
      · simp [Client.record, hl]
      · simp
      · intro x hx
        rw [List.mem_append] at hx
        rcases hx with hx | hx
        · exact hb x hx
        · simp only [List.mem_singleton] at hx
          subst hx; rfl
      · simp [LogEntry.fatal, Call.isGet]
      · simp [record_policies, hp, List.foldl_append, applyEntry]
    | createFailed e hf hq hf2 =>
      refine ⟨calls ++ [⟨.GetPolicy d.ClusterNamespace (c.FullNameForPolicy inst), some .NotFound⟩,
        ⟨.Create (newReplica c inst d), some e⟩], ?_,
        ⟨calls ++ [⟨.GetPolicy d.ClusterNamespace (c.FullNameForPolicy inst), some .NotFound⟩],
          .Create (newReplica c inst d), ?_, ?_, ?_⟩, ?_⟩
      · simp [Client.record, hl]
      · simp
      · intro x hx
        rw [List.mem_append] at hx
        rcases hx with hx | hx
        · exact hb x hx
        · simp only [List.mem_singleton] at hx
          subst hx
          simp [LogEntry.fatal, Call.isGet, StoreError.IsNotFound]
      · simp [LogEntry.fatal, Call.isGet]
      · simp [record_policies, hp, List.foldl_append, applyEntry]

/-- The trace of a pass of `handleRootPolicy` for an enabled root. -/
theorem handleRootPolicy_trace (c : Common) (inst : Policy) (r : ReconcilePolicy)
    (hen : inst.Spec.Disabled = false) :
    ∃ calls, (handleRootPolicy c inst r).r.client.log = r.client.log ++ calls ∧
      okTrace (handleRootPolicy c inst r).err calls ∧
      (handleRootPolicy c inst r).r.client.policies = calls.foldl applyEntry r.client.policies := by
  unfold handleRootPolicy Client.ListPlacementBindings
  simp only [hen, Bool.false_eq_true, if_false]
  cases hf : r.client.fault with
  | some e =>
    refine ⟨[⟨.ListPlacementBindings inst.Namespace, some e⟩], ?_, ⟨[], _, rfl, ?_, ?_⟩, ?_⟩
    · simp [Client.record]
    · simp
    · simp [LogEntry.fatal, Call.isGet]
    · simp [record_policies, applyEntry]
  | none =>
    simp only
    exact bindingLoop_trace c inst r.client _ _
      ⟨[⟨.ListPlacementBindings inst.Namespace, none⟩], by simp [Client.record],
        by simp [LogEntry.fatal], by simp [record_policies, applyEntry]⟩

/-- C9: in a pass for an enabled root, a call that fails (any error of the binding list, a
create or an update; any error but not-found of a get) is the last call of the pass and its
error is the one `handleRootPolicy` returns; an error returned is always that of the last
call; and the stored policies are the result of the served calls applied in order. -/
theorem handleRootPolicy_error_aborts (c : Common) (inst : Policy) (r : ReconcilePolicy)
    (hen : inst.Spec.Disabled = false) :
    (handleRootPolicy c inst r).r.client.log =
      r.client.log ++ newCalls r.client (handleRootPolicy c inst r).r.client ∧
    (∀ pre x post, newCalls r.client (handleRootPolicy c inst r).r.client = pre ++ x :: post →
      x.fatal = true → post = [] ∧ (handleRootPolicy c inst r).err = x.result) ∧
    (∀ e, (handleRootPolicy c inst r).err = some e →
      ∃ pre call, newCalls r.client (handleRootPolicy c inst r).r.client = pre ++ [⟨call, some e⟩]) ∧
    (handleRootPolicy c inst r).r.client.policies =
      (newCalls r.client (handleRootPolicy c inst r).r.client).foldl applyEntry r.client.policies := by
  obtain ⟨calls, hl, ht, hp⟩ := handleRootPolicy_trace c inst r hen
  rw [newCalls_append _ _ _ hl]
  refine ⟨hl, ?_, ?_, hp⟩
  · intro pre x post hsplit hx
    cases herr : (handleRootPolicy c inst r).err with
    | none =>
      rw [herr] at ht
      have := ht x (by rw [hsplit]; simp)
      rw [this] at hx; cases hx
    | some e =>
      rw [herr] at ht
      obtain ⟨pre', call, hc, hb, _⟩ := ht
      have hnot : x ∉ pre' := fun hmem => by
        have := hb x hmem
        rw [this] at hx; cases hx
      obtain ⟨hpost, hxy⟩ := eq_last_of_not_mem pre' _ pre x post (hc ▸ hsplit) hnot
      exact ⟨hpost, by rw [hxy]⟩
  · intro e herr
    rw [herr] at ht
    obtain ⟨pre', call, hc, _, _⟩ := ht
    exact ⟨pre', call, hc⟩

/-- Witness for C9: a pass over the sample store whose fourth call, the create, fails. -/
theorem handleRootPolicy_error_aborts_witness :
    (handleRootPolicy exCommon exRoot exFailing).err = some .Conflict ∧
    ((handleRootPolicy exCommon exRoot exFailing).r.client.log =
      exFailing.client.log ++ newCalls exFailing.client
        (handleRootPolicy exCommon exRoot exFailing).r.client ∧
    (∀ pre x post, newCalls exFailing.client (handleRootPolicy exCommon exRoot exFailing).r.client
        = pre ++ x :: post →
      x.fatal = true → post = [] ∧ (handleRootPolicy exCommon exRoot exFailing).err = x.result) ∧
    (∀ e, (handleRootPolicy exCommon exRoot exFailing).err = some e →
      ∃ pre call, newCalls exFailing.client (handleRootPolicy exCommon exRoot exFailing).r.client
        = pre ++ [⟨call, some e⟩]) ∧
    (handleRootPolicy exCommon exRoot exFailing).r.client.policies =
      (newCalls exFailing.client (handleRootPolicy exCommon exRoot exFailing).r.client).foldl
        applyEntry exFailing.client.policies) :=
  ⟨by decide, handleRootPolicy_error_aborts exCommon exRoot exFailing (by decide)⟩

/-! ## Which rules are fetched and which decisions are handled -/

theorem handleDecision_ok_calls (c : Common) (inst : Policy) (d : PlacementDecision)
    (r r1 : ReconcilePolicy) (h : handleDecision c inst d r = (none, r1)) :
    r1.client.rules = r.client.rules ∧ r1.client.bindings = r.client.bindings ∧
    ∃ calls, r1.client.log = r.client.log ++ calls ∧
      calls.filterMap LogEntry.ruleFetched = [] ∧ calls.countP LogEntry.isGetPolicy = 1 := by
  have hrun := handleDecision_run c inst d r
  rw [h] at hrun
  cases hrun with
  | upToDate p hf hp heq =>
    exact ⟨rfl, rfl, [⟨.GetPolicy d.ClusterNamespace (c.FullNameForPolicy inst), none⟩],
      by simp [Client.record], by simp [LogEntry.ruleFetched], by simp [LogEntry.isGetPolicy]⟩
  | updated p hf hp hne hf2 =>
    exact ⟨rfl, rfl, [⟨.GetPolicy d.ClusterNamespace (c.FullNameForPolicy inst), none⟩,
        ⟨.Update (patched inst p), none⟩],
      by simp [Client.record], by simp [LogEntry.ruleFetched], by simp [LogEntry.isGetPolicy]⟩
  | created hf hp hf2 =>
    exact ⟨rfl, rfl, [⟨.GetPolicy d.ClusterNamespace (c.FullNameForPolicy inst), some .NotFound⟩,
        ⟨.Create (newReplica c inst d), none⟩],
      by simp [Client.record], by simp [LogEntry.ruleFetched], by simp [LogEntry.isGetPolicy]⟩

theorem decisionLoop_ok_summary (c : Common) (inst : Policy) :
    ∀ (ds : List PlacementDecision) (st st1 : Pass), decisionLoop c inst ds st = (none, st1) →
      st1.r.client.rules = st.r.client.rules ∧ st1.allDecisions = st.allDecisions ++ ds ∧
      ∃ calls, st1.r.client.log = st.r.client.log ++ calls ∧
        calls.filterMap LogEntry.ruleFetched = [] ∧ calls.countP LogEntry.isGetPolicy = ds.length := by
  intro ds
  induction ds with
  | nil =>
    intro st st1 h
    simp only [decisionLoop, Prod.mk.injEq, true_and] at h
    subst h
    exact ⟨rfl, by simp, [], by simp, rfl, rfl⟩
  | cons d rest ih =>
    intro st st1 h
    unfold decisionLoop at h
    cases hd : handleDecision c inst d st.r with
    | mk err r1 =>
      rw [hd] at h
      cases err with
      | some e => simp at h
      | none =>
        simp only at h
        obtain ⟨hr, _, calls1, hl1, hf1, hc1⟩ := handleDecision_ok_calls c inst d st.r r1 hd
        obtain ⟨hr2, ha2, calls2, hl2, hf2, hc2⟩ := ih _ _ h
        refine ⟨hr2.trans hr, by simp [ha2], calls1 ++ calls2, ?_, ?_, ?_⟩
        · simp [hl2, hl1]
        · simp [hf1, hf2]
        · simp [hc1, hc2, List.countP_append]; omega

theorem subjectLoop_ok_summary (c : Common) (inst : Policy) (pb : PlacementBinding) :
    ∀ (ss : List Subject) (st st1 : Pass), subjectLoop c inst pb ss st = (none, st1) →
      st1.r.client.rules = st.r.client.rules ∧
      st1.allDecisions = st.allDecisions ++
        (if ss.any (subjectMatches c inst) then
          decisionsOf st.r.client.rules inst.Namespace pb.PlacementRef.Name else []) ∧
      ∃ calls, st1.r.client.log = st.r.client.log ++ calls ∧
        calls.filterMap LogEntry.ruleFetched =
          (if ss.any (subjectMatches c inst) then [(inst.Namespace, pb.PlacementRef.Name)] else []) ∧
        calls.countP LogEntry.isGetPolicy =
          (if ss.any (subjectMatches c inst) then
            (decisionsOf st.r.client.rules inst.Namespace pb.PlacementRef.Name).length else 0) := by
  intro ss
  induction ss with
  | nil =>
    intro st st1 h
    simp only [subjectLoop, Prod.mk.injEq, true_and] at h
    subst h
    exact ⟨rfl, by simp, [], by simp, by simp, by simp⟩
  | cons s rest ih =>
    intro st st1 h
    unfold subjectLoop at h
    by_cases hm : subjectMatches c inst s = true
    · simp only [hm, if_true] at h
      simp only [List.any_cons, hm, Bool.true_or, if_true]
      rcases getPlacementRule_cases st.r.client inst.Namespace pb.PlacementRef.Name with
        ⟨e, hne, hf, heq⟩ | ⟨plr, hf, hp, heq⟩ | ⟨hf, hp, heq⟩
      · rw [heq] at h
        simp [hne] at h
      · rw [heq] at h
        simp only [Option.isSome_none, Bool.false_and, Bool.false_eq_true, if_false] at h
        obtain ⟨hr, ha, calls, hl, hfm, hc⟩ := decisionLoop_ok_summary c inst _ _ _ h
        have hdec : decisionsOf st.r.client.rules inst.Namespace pb.PlacementRef.Name =
            plr.Status.Decisions := by simp [decisionsOf, hp]
        refine ⟨hr, by rw [ha, hdec], ⟨.GetPlacementRule inst.Namespace pb.PlacementRef.Name, none⟩ :: calls,
          ?_, ?_, ?_⟩
        · simp [hl, Client.record]
        · simp [hfm, LogEntry.ruleFetched]
        · simp [hc, hdec, LogEntry.isGetPolicy]
      · rw [heq] at h
        simp only [Option.isSome_some, Option.any_some, StoreError.IsNotFound, Bool.not_true,
          Bool.and_false, Bool.false_eq_true, if_false] at h
        obtain ⟨hr, ha, calls, hl, hfm, hc⟩ := decisionLoop_ok_summary c inst _ _ _ h
        have hdec : decisionsOf st.r.client.rules inst.Namespace pb.PlacementRef.Name = [] := by
          simp [decisionsOf, hp]
        refine ⟨hr, by rw [ha, hdec]; rfl,
          ⟨.GetPlacementRule inst.Namespace pb.PlacementRef.Name, some .NotFound⟩ :: calls, ?_, ?_, ?_⟩
        · simp [hl, Client.record]
        · simp [hfm, LogEntry.ruleFetched]
        · simp [hc, hdec, LogEntry.isGetPolicy, PlacementRule.zero]
    · simp only [hm, Bool.false_eq_true, if_false] at h
      simp only [Bool.not_eq_true] at hm
      simp only [List.any_cons, hm, Bool.false_or]
      exact ih st st1 h

theorem bindingLoop_ok_summary (c : Common) (inst : Policy) :
    ∀ (pbs : List PlacementBinding) (st st1 : Pass), bindingLoop c inst pbs st = (none, st1) →
      st1.r.client.rules = st.r.client.rules ∧
      st1.allDecisions = st.allDecisions ++
        (pbs.filter (fun pb => pb.Subjects.any (subjectMatches c inst))).flatMap
          (fun pb => decisionsOf st.r.client.rules inst.Namespace pb.PlacementRef.Name) ∧
      ∃ calls, st1.r.client.log = st.r.client.log ++ calls ∧
        calls.filterMap LogEntry.ruleFetched =
          (pbs.filter (fun pb => pb.Subjects.any (subjectMatches c inst))).map
            (fun pb => (inst.Namespace, pb.PlacementRef.Name)) ∧
        calls.countP LogEntry.isGetPolicy =
          ((pbs.filter (fun pb => pb.Subjects.any (subjectMatches c inst))).flatMap
            (fun pb => decisionsOf st.r.client.rules inst.Namespace pb.PlacementRef.Name)).length := by
  intro pbs
  induction pbs with
  | nil =>
    intro st st1 h
    simp only [bindingLoop, Prod.mk.injEq, true_and] at h
    subst h
    exact ⟨rfl, by simp, [], by simp, by simp, by simp⟩
  | cons pb rest ih =>
    intro st st1 h
    unfold bindingLoop at h
    cases hs : subjectLoop c inst pb pb.Subjects st with
    | mk err st2 =>
      rw [hs] at h
      cases err with
      | some e => simp at h
      | none =>
        simp only at h
        obtain ⟨hr1, ha1, calls1, hl1, hf1, hc1⟩ := subjectLoop_ok_summary c inst pb _ _ _ hs
        obtain ⟨hr2, ha2, calls2, hl2, hf2, hc2⟩ := ih _ _ h
        rw [hr1] at ha2 hc2
        refine ⟨hr2.trans hr1, ?_, calls1 ++ calls2, by simp [hl2, hl1], ?_, ?_⟩
        · rw [ha2, ha1]
          by_cases hm : pb.Subjects.any (subjectMatches c inst) = true
          · simp [List.filter_cons, hm]
          · simp [List.filter_cons, hm]
        · rw [List.filterMap_append, hf1, hf2]
          by_cases hm : pb.Subjects.any (subjectMatches c inst) = true
          · simp [List.filter_cons, hm]
          · simp [List.filter_cons, hm]
        · rw [List.countP_append, hc1, hc2]
          by_cases hm : pb.Subjects.any (subjectMatches c inst) = true
          · simp [List.filter_cons, hm]
          · simp [List.filter_cons, hm]

/-- What a successful pass for an enabled root fetched and handled. -/
theorem handleRootPolicy_ok_summary (c : Common) (inst : Policy) (r : ReconcilePolicy)
    (hen : inst.Spec.Disabled = false) (hok : (handleRootPolicy c inst r).err = none) :
    (handleRootPolicy c inst r).allDecisions =
      (matchingBindings c inst r.client).flatMap
        (fun pb => decisionsOf r.client.rules inst.Namespace pb.PlacementRef.Name) ∧
    (newCalls r.client (handleRootPolicy c inst r).r.client).filterMap LogEntry.ruleFetched =
      (matchingBindings c inst r.client).map (fun pb => (inst.Namespace, pb.PlacementRef.Name)) ∧
    (newCalls r.client (handleRootPolicy c inst r).r.client).countP LogEntry.isGetPolicy =
      (handleRootPolicy c inst r).allDecisions.length := by
  unfold handleRootPolicy Client.ListPlacementBindings at hok ⊢
  simp only [hen, Bool.false_eq_true, if_false] at hok ⊢
  cases hf : r.client.fault with
  | some e => rw [hf] at hok; simp at hok
  | none =>
    rw [hf] at hok
    simp only at hok ⊢
    obtain ⟨_, ha, calls, hl, hfm, hc⟩ := bindingLoop_ok_summary c inst _ _ _
      (Prod.ext hok rfl : bindingLoop c inst _ _ = (none, _))
    have hlog := newCalls_append r.client _
      (⟨.ListPlacementBindings inst.Namespace, none⟩ :: calls) (by rw [hl]; simp [Client.record])
    rw [hlog]
    refine ⟨by simpa [matchingBindings] using ha, ?_, ?_⟩
    · simpa [matchingBindings, LogEntry.ruleFetched] using hfm
    · rw [ha]
      simpa [matchingBindings, LogEntry.isGetPolicy] using hc

/-- C6: in a successful pass for an enabled root, each binding of the root's namespace that has
a matching subject has its placement rule fetched once, however many of its subjects match, and
`handleDecision` is invoked once per decision entry of the rules fetched: the number of rule
fetches is the number of such bindings, the decisions handled are those of their rules in
order, and the number of replica gets is the number of decisions handled. -/
theorem handleRootPolicy_first_subject_only (c : Common) (inst : Policy) (r : ReconcilePolicy)
    (hen : inst.Spec.Disabled = false) (hok : (handleRootPolicy c inst r).err = none) :
    ((newCalls r.client (handleRootPolicy c inst r).r.client).filterMap
      LogEntry.ruleFetched).length = (matchingBindings c inst r.client).length ∧
    (handleRootPolicy c inst r).allDecisions =
      (matchingBindings c inst r.client).flatMap
        (fun pb => decisionsOf r.client.rules inst.Namespace pb.PlacementRef.Name) ∧
    (newCalls r.client (handleRootPolicy c inst r).r.client).countP LogEntry.isGetPolicy =
      (handleRootPolicy c inst r).allDecisions.length := by
  obtain ⟨h1, h2, h3⟩ := handleRootPolicy_ok_summary c inst r hen hok
  exact ⟨by rw [h2, List.length_map], h1, h3⟩

/-- Witness for C6: a binding whose two subjects both name the root. -/
theorem handleRootPolicy_first_subject_only_witness :
    (matchingBindings exCommon exRoot exTwoSubjects.client).map
      (fun pb => (pb.Subjects.filter (subjectMatches exCommon exRoot)).length) = [2] ∧
    (((newCalls exTwoSubjects.client (handleRootPolicy exCommon exRoot exTwoSubjects).r.client).filterMap
      LogEntry.ruleFetched).length = (matchingBindings exCommon exRoot exTwoSubjects.client).length ∧
    (handleRootPolicy exCommon exRoot exTwoSubjects).allDecisions =
      (matchingBindings exCommon exRoot exTwoSubjects.client).flatMap
        (fun pb => decisionsOf exTwoSubjects.client.rules exRoot.Namespace pb.PlacementRef.Name) ∧
    (newCalls exTwoSubjects.client
        (handleRootPolicy exCommon exRoot exTwoSubjects).r.client).countP LogEntry.isGetPolicy =
      (handleRootPolicy exCommon exRoot exTwoSubjects).allDecisions.length) :=
  ⟨by decide, handleRootPolicy_first_subject_only exCommon exRoot exTwoSubjects (by decide) (by decide)⟩

/-- C7, as stated, fails: with two bindings that both name the root, the rule of the second
binding is fetched and its decision is replicated as well. -/
theorem handleRootPolicy_later_binding_counterexample :
    (handleRootPolicy exCommon exRoot exTwoBindings).err = none ∧
    (newCalls exTwoBindings.client (handleRootPolicy exCommon exRoot exTwoBindings).r.client).filterMap
      LogEntry.ruleFetched = [("ns1", "rule-1"), ("ns1", "rule-2")] ∧
    (handleRootPolicy exCommon exRoot exTwoBindings).allDecisions = [⟨"c1", "c1"⟩, ⟨"c2", "c2"⟩] ∧
    (handleRootPolicy exCommon exRoot exTwoBindings).r.client.policies.map
      (fun p => (p.Namespace, p.Name)) = [("c1", "ns1.pol-a"), ("c2", "ns1.pol-a")] := by
  decide

/-- C7, amended: a matching subject ends the scan of its own binding only. A successful pass for
an enabled root fetches, in store order, the placement rule of every binding of the root's
namespace that has a matching subject, and handles every decision of every such rule. -/
theorem handleRootPolicy_every_matching_binding (c : Common) (inst : Policy) (r : ReconcilePolicy)
    (hen : inst.Spec.Disabled = false) (hok : (handleRootPolicy c inst r).err = none) :
    (newCalls r.client (handleRootPolicy c inst r).r.client).filterMap LogEntry.ruleFetched =
      (matchingBindings c inst r.client).map (fun pb => (inst.Namespace, pb.PlacementRef.Name)) ∧
    ∀ pb ∈ matchingBindings c inst r.client,
      ∀ d ∈ decisionsOf r.client.rules inst.Namespace pb.PlacementRef.Name,
        d ∈ (handleRootPolicy c inst r).allDecisions := by
  obtain ⟨h1, h2, _⟩ := handleRootPolicy_ok_summary c inst r hen hok
  refine ⟨h2, ?_⟩
  intro pb hpb d hd
  rw [h1, List.mem_flatMap]
  exact ⟨pb, hpb, hd⟩

/-- Witness for the amended C7: two bindings that both name the root. -/
theorem handleRootPolicy_every_matching_binding_witness :
    (matchingBindings exCommon exRoot exTwoBindings.client).length = 2 ∧
    ((newCalls exTwoBindings.client (handleRootPolicy exCommon exRoot exTwoBindings).r.client).filterMap
        LogEntry.ruleFetched =
      (matchingBindings exCommon exRoot exTwoBindings.client).map
        (fun pb => (exRoot.Namespace, pb.PlacementRef.Name)) ∧
    ∀ pb ∈ matchingBindings exCommon exRoot exTwoBindings.client,
      ∀ d ∈ decisionsOf exTwoBindings.client.rules exRoot.Namespace pb.PlacementRef.Name,
        d ∈ (handleRootPolicy exCommon exRoot exTwoBindings).allDecisions) :=
  ⟨by decide, handleRootPolicy_every_matching_binding exCommon exRoot exTwoBindings
    (by decide) (by decide)⟩

/-! ## A binding whose placement rule is missing -/

theorem subjectLoop_rule_notFound (c : Common) (inst : Policy) (pb : PlacementBinding) :
    ∀ (ss : List Subject) (st : Pass), ss.any (subjectMatches c inst) = true →
      (st.r.client.GetPlacementRule inst.Namespace pb.PlacementRef.Name).1 = some .NotFound →
      subjectLoop c inst pb ss st =
        (none, { st with
          r := { st.r with client := (st.r.client.record
            (.GetPlacementRule inst.Namespace pb.PlacementRef.Name) (some .NotFound)) }
          placement := st.placement ++ [⟨pb.Name, ""⟩] }) := by
  intro ss
  induction ss with
  | nil => intro st h; simp at h
  | cons s rest ih =>
    intro st hm hnf
    unfold subjectLoop
    by_cases hs : subjectMatches c inst s = true
    · simp only [hs, if_true]
      rcases getPlacementRule_cases st.r.client inst.Namespace pb.PlacementRef.Name with
        ⟨e, hne, hf, heq⟩ | ⟨plr, hf, hp, heq⟩ | ⟨hf, hp, heq⟩
      · rw [heq] at hnf
        simp only [Option.some.injEq] at hnf
        subst hnf
        cases hne
      · rw [heq] at hnf
        cases hnf
      · rw [heq]
        simp [StoreError.IsNotFound, PlacementRule.zero, decisionLoop]
    · simp only [Bool.not_eq_true] at hs
      simp only [hs, Bool.false_eq_true, if_false]
      simp only [List.any_cons, hs, Bool.false_or] at hm
      exact ih st hm hnf

/-- C10: when a binding has a subject naming the root and the get of its placement rule reports
not-found, the loop over the bindings of `handleRootPolicy` carries on with the remaining
bindings from a state that differs only by that logged get and one placement record with an
empty rule name: no decision was handled for the binding, and the outcome of the pass is the
outcome of the remaining bindings, `nil` included. -/
theorem bindingLoop_skips_missing_rule (c : Common) (inst : Policy) (pb : PlacementBinding)
    (rest : List PlacementBinding) (st : Pass)
    (hm : pb.Subjects.any (subjectMatches c inst) = true)
    (hnf : (st.r.client.GetPlacementRule inst.Namespace pb.PlacementRef.Name).1 = some .NotFound) :
    bindingLoop c inst (pb :: rest) st =
      bindingLoop c inst rest
        { r := { st.r with client := (st.r.client.record
            (.GetPlacementRule inst.Namespace pb.PlacementRef.Name) (some .NotFound)) }
          placement := st.placement ++ [⟨pb.Name, ""⟩]
          allDecisions := st.allDecisions } := by
  rw [bindingLoop, subjectLoop_rule_notFound c inst pb pb.Subjects st hm hnf]

/-- Witness for C10: the first binding refers to a rule that is not stored, the second one is
processed and the pass returns `nil`. -/
theorem bindingLoop_skips_missing_rule_witness :
    (bindingLoop exCommon exRoot [exBinding1, exBinding2] exMissingRule).1 = none ∧
    (bindingLoop exCommon exRoot [exBinding1, exBinding2] exMissingRule).2.allDecisions
      = [⟨"c2", "c2"⟩] ∧
    bindingLoop exCommon exRoot (exBinding1 :: [exBinding2]) exMissingRule =
      bindingLoop exCommon exRoot [exBinding2]
        { r := { exMissingRule.r with client := (exMissingRule.r.client.record
            (.GetPlacementRule exRoot.Namespace exBinding1.PlacementRef.Name) (some .NotFound)) }
          placement := exMissingRule.placement ++ [⟨exBinding1.Name, ""⟩]
          allDecisions := exMissingRule.allDecisions } :=
  ⟨by decide, by decide,
    bindingLoop_skips_missing_rule exCommon exRoot exBinding1 [exBinding2] exMissingRule
      (by decide) (by decide)⟩

/-! ## The clean-up of a disabled root -/

/-- The three ways a delete can run. -/
theorem delete_cases (cl : Client) (obj : Policy) :
    (∃ e, e.IsNotFound = false ∧ cl.Delete obj = (some e, cl.record (.Delete obj) (some e))) ∨
    (cl.Delete obj = (none, { cl.record (.Delete obj) none with
        policies := cl.policies.filter (fun p => !Policy.hasKey obj.Namespace obj.Name p) })) ∨
    (cl.policies.any (Policy.hasKey obj.Namespace obj.Name) = false ∧
      cl.Delete obj = (some .NotFound, cl.record (.Delete obj) (some .NotFound))) := by
  unfold Client.Delete
  cases hf : cl.fault with
  | some e => exact Or.inl ⟨e, fault_ne_notFound _ _ hf, rfl⟩
  | none =>
    cases hany : cl.policies.any (Policy.hasKey obj.Namespace obj.Name) with
    | true => exact Or.inr (Or.inl (by simp))
    | false => exact Or.inr (Or.inr ⟨rfl, by simp⟩)

/-- After a delete loop that ended without error, nothing is stored under the key of any
listed object, and nothing was added to the store. -/
theorem deleteLoop_ok (items : List Policy) :
    ∀ (cl cl1 : Client), deleteLoop items cl = (none, cl1) →
      (∀ p ∈ cl1.policies, p ∈ cl.policies) ∧
      (∀ plc ∈ items, ∀ p ∈ cl1.policies, Policy.hasKey plc.Namespace plc.Name p = false) := by
  induction items with
  | nil =>
    intro cl cl1 h
    simp only [deleteLoop, Prod.mk.injEq, true_and] at h
    subst h
    exact ⟨fun p hp => hp, by simp⟩
  | cons plc rest ih =>
    intro cl cl1 h
    unfold deleteLoop at h
    rcases delete_cases cl plc with ⟨e, hne, heq⟩ | heq | ⟨hany, heq⟩
    · rw [heq] at h
      simp [hne] at h
    · rw [heq] at h
      simp only at h
      obtain ⟨hsub, hgone⟩ := ih _ _ h
      refine ⟨fun p hp => (List.mem_filter.mp (hsub p hp)).1, ?_⟩
      intro q hq p hp
      rcases List.mem_cons.mp hq with rfl | hq
      · have := (List.mem_filter.mp (hsub p hp)).2
        simpa using this
      · exact hgone q hq p hp
    · rw [heq] at h
      simp only [StoreError.IsNotFound, Bool.not_true, Bool.false_eq_true, if_false] at h
      obtain ⟨hsub, hgone⟩ := ih _ _ h
      refine ⟨fun p hp => hsub p hp, ?_⟩
      intro q hq p hp
      rcases List.mem_cons.mp hq with rfl | hq
      · have := hsub p hp
        rw [record_policies] at this
        rw [List.any_eq_false] at hany
        simpa using hany p this
      · exact hgone q hq p hp

/-- The ways a status update can run without a fatal error: the stored policies are the former
ones up to their status, and whatever is stored under the key of the object has its status. -/
theorem statusUpdate_ok (cl cl1 : Client) (obj : Policy) (res : Option StoreError)
    (h : cl.StatusUpdate obj = (res, cl1)) (hres : res = none ∨ res = some .NotFound) :
    (∀ p ∈ cl1.policies, ∃ q ∈ cl.policies, p.Labels = q.Labels) ∧
    (∀ p ∈ cl1.policies, Policy.hasKey obj.Namespace obj.Name p = true → p.Status = obj.Status) := by
  unfold Client.StatusUpdate at h
  cases hf : cl.fault with
  | some e =>
    rw [hf] at h
    simp only [Prod.mk.injEq] at h
    have := fault_ne_notFound _ _ hf
    rcases hres with rfl | rfl
    · simp at h
    · obtain ⟨h1, _⟩ := h
      simp only [Option.some.injEq] at h1
      subst h1
      cases this
  | none =>
    rw [hf] at h
    cases hany : cl.policies.any (Policy.hasKey obj.Namespace obj.Name) with
    | true =>
      simp only [hany, if_true, Prod.mk.injEq] at h
      obtain ⟨_, rfl⟩ := h
      constructor
      · intro p hp
        simp only [List.mem_map] at hp
        obtain ⟨q, hq, rfl⟩ := hp
        refine ⟨q, hq, ?_⟩
        split <;> rfl
      · intro p hp hk
        simp only [List.mem_map] at hp
        obtain ⟨q, hq, rfl⟩ := hp
        by_cases hkq : Policy.hasKey obj.Namespace obj.Name q = true
        · simp [hkq]
        · simp only [hkq, if_false] at hk
          exact absurd hk hkq
    | false =>
      simp only [hany, Bool.false_eq_true, if_false, Prod.mk.injEq] at h
      obtain ⟨_, rfl⟩ := h
      constructor
      · intro p hp
        exact ⟨p, hp, rfl⟩
      · intro p hp hk
        rw [List.any_eq_false] at hany
        exact absurd hk (hany p hp)

theorem matchesLabels_congr (sel : StrMap) (p q : Policy) (h : p.Labels = q.Labels) :
    matchesLabels sel p = matchesLabels sel q := by
  simp [matchesLabels, h]

/-- C2: after a pass for a disabled root that returned `nil`, no stored policy matches the
ownership label selector of the root, the status of the root object is the zero value, and so
is the status of whatever is stored under the root's key. -/
theorem handleRootPolicy_disabled_cleans (c : Common) (inst : Policy) (r : ReconcilePolicy)
    (hdis : inst.Spec.Disabled = true) (hok : (handleRootPolicy c inst r).err = none) :
    (handleRootPolicy c inst r).r.client.policies.filter
      (matchesLabels (c.LabelsForRootPolicy inst)) = [] ∧
    (handleRootPolicy c inst r).inst.Status = PolicyStatus.zero ∧
    (∀ p ∈ (handleRootPolicy c inst r).r.client.policies,
      Policy.hasKey inst.Namespace inst.Name p = true → p.Status = PolicyStatus.zero) := by
  unfold handleRootPolicy Client.ListPolicies at hok ⊢
  simp only [hdis, if_true] at hok ⊢
  cases hf : r.client.fault with
  | some e => rw [hf] at hok; simp at hok
  | none =>
    rw [hf] at hok
    simp only at hok ⊢
    cases hdel : deleteLoop (r.client.policies.filter (matchesLabels (c.LabelsForRootPolicy inst)))
        (r.client.record (.ListPolicies (c.LabelsForRootPolicy inst)) none) with
    | mk derr cl2 =>
      rw [hdel] at hok
      cases derr with
      | some e => simp at hok
      | none =>
        simp only at hok ⊢
        obtain ⟨hsub, hgone⟩ := deleteLoop_ok _ _ _ hdel
        have hclean : ∀ p ∈ cl2.policies, matchesLabels (c.LabelsForRootPolicy inst) p = false := by
          intro p hp
          by_contra hmatch
          simp only [Bool.not_eq_false] at hmatch
          have hmem : p ∈ r.client.policies.filter (matchesLabels (c.LabelsForRootPolicy inst)) :=
            List.mem_filter.mpr ⟨by simpa [record_policies] using hsub p hp, hmatch⟩
          have := hgone p hmem p hp
          simp [Policy.hasKey] at this
        cases hst : cl2.StatusUpdate { inst with Status := PolicyStatus.zero } with
        | mk serr cl3 =>
          rw [hst] at hok
          have hfin : (serr = none ∨ serr = some .NotFound) → 
              cl3.policies.filter (matchesLabels (c.LabelsForRootPolicy inst)) = [] ∧
              (∀ p ∈ cl3.policies,
                Policy.hasKey inst.Namespace inst.Name p = true → p.Status = PolicyStatus.zero) := by
            intro hres
            obtain ⟨hlab, hstat⟩ := statusUpdate_ok _ _ _ _ hst hres
            refine ⟨?_, fun p hp hk => hstat p hp hk⟩
            rw [List.filter_eq_nil_iff]
            intro p hp
            obtain ⟨q, hq, hpq⟩ := hlab p hp
            rw [matchesLabels_congr _ p q hpq, hclean q hq]
            simp
          cases serr with
          | none =>
            exact ⟨(hfin (Or.inl rfl)).1, rfl, (hfin (Or.inl rfl)).2⟩
          | some e =>
            cases e with
            | NotFound =>
              exact ⟨(hfin (Or.inr rfl)).1, rfl, (hfin (Or.inr rfl)).2⟩
            | AlreadyExists => simp [StoreError.IsNotFound] at hok
            | Conflict => simp [StoreError.IsNotFound] at hok
            | Internal msg => simp [StoreError.IsNotFound] at hok

/-- Witness for C2: the disabled sample root with one replica stored. -/
theorem handleRootPolicy_disabled_cleans_witness :
    (exDisabledStore.client.policies.filter
      (matchesLabels (exCommon.LabelsForRootPolicy exDisabledRoot))).length = 1 ∧
    ((handleRootPolicy exCommon exDisabledRoot exDisabledStore).r.client.policies.filter
      (matchesLabels (exCommon.LabelsForRootPolicy exDisabledRoot)) = [] ∧
    (handleRootPolicy exCommon exDisabledRoot exDisabledStore).inst.Status = PolicyStatus.zero ∧
    (∀ p ∈ (handleRootPolicy exCommon exDisabledRoot exDisabledStore).r.client.policies,
      Policy.hasKey exDisabledRoot.Namespace exDisabledRoot.Name p = true →
        p.Status = PolicyStatus.zero)) :=
  ⟨by decide, handleRootPolicy_disabled_cleans exCommon exDisabledRoot exDisabledStore
    (by decide) (by decide)⟩

/-! ## One replica per cluster namespace -/

/-- C1, as stated, fails: two decisions naming the two distinct targets `c1/c1` and `c2/c1`
are handled without error from a store without replicas, and the store ends with one replica. -/
theorem handleRootPolicy_targets_counterexample :
    exRoot.Spec.Disabled = false ∧
    replicasOf exCommon exRoot exTwoTargets.client.policies = [] ∧
    (handleRootPolicy exCommon exRoot exTwoTargets).err = none ∧
    (handleRootPolicy exCommon exRoot exTwoTargets).allDecisions.length = 2 ∧
    (handleRootPolicy exCommon exRoot exTwoTargets).allDecisions.dedup.length = 2 ∧
    (replicasOf exCommon exRoot
      (handleRootPolicy exCommon exRoot exTwoTargets).r.client.policies).length = 1 := by
  refine ⟨by decide, rfl, by decide, by decide, by decide, by decide⟩

theorem filter_hasKey_length (c : Common) (inst : Policy) (ns : String) (ps : List Policy) :
    (ps.filter (Policy.hasKey ns (c.FullNameForPolicy inst))).length =
      ((replicasOf c inst ps).map (fun p => p.Namespace)).count ns := by
  induction ps with
  | nil => simp [replicasOf]
  | cons q rest ih =>
    unfold replicasOf at ih ⊢
    by_cases hn : q.Name = c.FullNameForPolicy inst
    · by_cases hs : q.Namespace = ns
      · simp [List.filter_cons, Policy.hasKey, hn, hs, ih]
      · simp [List.filter_cons, Policy.hasKey, hn, hs, ih, List.count_cons]
    · simp [List.filter_cons, Policy.hasKey, hn, ih]

/-- The invariant behind C1: the replicas of the root sit in pairwise different namespaces, the
namespaces of the decisions handled so far, and each mirrors the root and carries its label. -/
theorem bindingLoop_replicas (c : Common) (inst : Policy) (pbs : List PlacementBinding)
    (st : Pass) (hinit : replicasOf c inst st.r.client.policies = [])
    (hdec : st.allDecisions = [])
    (hok : (bindingLoop c inst pbs st).1 = none) :
    ((replicasOf c inst (bindingLoop c inst pbs st).2.r.client.policies).map
      (fun p => p.Namespace)).Nodup ∧
    (∀ ns, ns ∈ (replicasOf c inst (bindingLoop c inst pbs st).2.r.client.policies).map
        (fun p => p.Namespace) ↔
      ∃ d ∈ (bindingLoop c inst pbs st).2.allDecisions, d.ClusterNamespace = ns) ∧
    (∀ p ∈ replicasOf c inst (bindingLoop c inst pbs st).2.r.client.policies,
      p.Spec = inst.Spec ∧ p.Annotations = inst.Annotations ∧
      p.Labels.lookup c.RootPolicyLabel = some (c.FullNameForPolicy inst)) := by
  refine bindingLoop_induction c inst
    (fun st => ((replicasOf c inst st.r.client.policies).map (fun p => p.Namespace)).Nodup ∧
      (∀ ns, ns ∈ (replicasOf c inst st.r.client.policies).map (fun p => p.Namespace) ↔
        ∃ d ∈ st.allDecisions, d.ClusterNamespace = ns) ∧
      (∀ p ∈ replicasOf c inst st.r.client.policies,
        p.Spec = inst.Spec ∧ p.Annotations = inst.Annotations ∧
        p.Labels.lookup c.RootPolicyLabel = some (c.FullNameForPolicy inst)))
    (fun o => o.1 = none →
      ((replicasOf c inst o.2.r.client.policies).map (fun p => p.Namespace)).Nodup ∧
      (∀ ns, ns ∈ (replicasOf c inst o.2.r.client.policies).map (fun p => p.Namespace) ↔
        ∃ d ∈ o.2.allDecisions, d.ClusterNamespace = ns) ∧
      (∀ p ∈ replicasOf c inst o.2.r.client.policies,
        p.Spec = inst.Spec ∧ p.Annotations = inst.Annotations ∧
        p.Labels.lookup c.RootPolicyLabel = some (c.FullNameForPolicy inst)))
    ?_ ?_ ?_ ?_ ?_ pbs st ?_ hok
  · intro st h _; exact h
  · intro st pb e _ _ _ h; cases h
  · intro st pb res plrName h _; exact h
  · rintro st d r ⟨hnd, hiff, heq⟩ hd
    have hrun := handleDecision_run c inst d st.r
    rw [hd] at hrun
    cases hrun with
    | upToDate p hf hp hcmp =>
      refine ⟨hnd, ?_, heq⟩
      intro ns
      simp only [record_policies]
      rw [hiff ns]
      constructor
      · rintro ⟨d', hd', hns⟩
        exact ⟨d', List.mem_append_left _ hd', hns⟩
      · rintro ⟨d', hd', hns⟩
        rcases List.mem_append.mp hd' with hd' | hd'
        · exact ⟨d', hd', hns⟩
        · simp only [List.mem_singleton] at hd'
          subst hd'
          have hk := (hasKey_iff _ _ _).mp (List.find?_some hp)
          have hmem : p ∈ replicasOf c inst st.r.client.policies :=
            List.mem_filter.mpr ⟨List.mem_of_find?_eq_some hp, by simp [hk.2]⟩
          have : ns ∈ (replicasOf c inst st.r.client.policies).map (fun p => p.Namespace) :=
            List.mem_map.mpr ⟨p, hmem, hk.1.trans hns⟩
          exact (hiff ns).mp this
    | updated p hf hp hne hf2 =>
      have hk := (hasKey_iff _ _ _).mp (List.find?_some hp)
      have hmem : p ∈ replicasOf c inst st.r.client.policies :=
        List.mem_filter.mpr ⟨List.mem_of_find?_eq_some hp, by simp [hk.2]⟩
      have := heq p hmem
      have hc : Common.CompareSpecAndAnnotation inst p = true :=
        (compare_iff _ _).mpr ⟨this.2.1.symm, this.1.symm⟩
      rw [hc] at hne; cases hne
    | created hf hp hf2 =>
      have hrep : replicasOf c inst (st.r.client.policies ++ [newReplica c inst d]) =
          replicasOf c inst st.r.client.policies ++ [newReplica c inst d] := by
        simp [replicasOf, List.filter_append, newReplica]
      have hfresh : d.ClusterNamespace ∉
          (replicasOf c inst st.r.client.policies).map (fun p => p.Namespace) := by
        intro hmem
        obtain ⟨q, hq, hqn⟩ := List.mem_map.mp hmem
        obtain ⟨hq1, hq2⟩ := List.mem_filter.mp hq
        rw [List.find?_eq_none] at hp
        have := hp q hq1
        simp only [decide_eq_true_eq] at hq2
        simp [Policy.hasKey, hq2, hqn] at this
      simp only [hrep]
      refine ⟨?_, ?_, ?_⟩
      · rw [List.map_append, List.nodup_append]
        refine ⟨hnd, by simp, ?_⟩
        intro a ha hb
        simp only [List.map_cons, List.map_nil, List.mem_singleton] at hb
        subst hb
        exact hfresh ha
      · intro ns
        simp only [List.map_append, List.mem_append, List.map_cons, List.map_nil,
          List.mem_singleton]
        rw [hiff ns]
        constructor
        · rintro (⟨d', hd', hns⟩ | hns)
          · exact ⟨d', Or.inl hd', hns⟩
          · exact ⟨d, Or.inr rfl, hns.symm⟩
        · rintro ⟨d', hd' | hd', hns⟩
          · exact Or.inl ⟨d', hd', hns⟩
          · subst hd'
            exact Or.inr hns.symm
      · intro p hp'
        rcases List.mem_append.mp hp' with hp' | hp'
        · exact heq p hp'
        · simp only [List.mem_singleton] at hp'
          subst hp'
          exact ⟨rfl, rfl, by simp [newReplica]⟩
  · intro st d e r _ _ h; cases h
  · show _ ∧ _ ∧ _
    rw [hinit, hdec]
    simp

/-- C1, amended: after a pass for an enabled root that returned `nil`, started with no object
stored under the root's replica name, exactly one replica is stored in the cluster namespace of
every decision handled, the number of replicas is the number of distinct cluster namespaces of
the decisions handled (targets that differ in their cluster name only share one replica), and
every replica has the spec and the annotations of the root and carries its owning-root label. -/
theorem handleRootPolicy_one_replica_per_namespace (c : Common) (inst : Policy)
    (r : ReconcilePolicy) (hen : inst.Spec.Disabled = false)
    (hinit : replicasOf c inst r.client.policies = [])
    (hok : (handleRootPolicy c inst r).err = none) :
    (∀ d ∈ (handleRootPolicy c inst r).allDecisions,
      ((handleRootPolicy c inst r).r.client.policies.filter
        (Policy.hasKey d.ClusterNamespace (c.FullNameForPolicy inst))).length = 1) ∧
    (replicasOf c inst (handleRootPolicy c inst r).r.client.policies).length =
      (((handleRootPolicy c inst r).allDecisions.map (fun d => d.ClusterNamespace)).dedup).length ∧
    (∀ p ∈ replicasOf c inst (handleRootPolicy c inst r).r.client.policies,
      p.Spec = inst.Spec ∧ p.Annotations = inst.Annotations ∧
      p.Labels.lookup c.RootPolicyLabel = some (c.FullNameForPolicy inst) ∧
      ∃ d ∈ (handleRootPolicy c inst r).allDecisions, p.Namespace = d.ClusterNamespace) := by
  have key : ∀ (ps : List Policy) (ds : List PlacementDecision),
      ((replicasOf c inst ps).map (fun p => p.Namespace)).Nodup →
      (∀ ns, ns ∈ (replicasOf c inst ps).map (fun p => p.Namespace) ↔
        ∃ d ∈ ds, d.ClusterNamespace = ns) →
      (∀ p ∈ replicasOf c inst ps, p.Spec = inst.Spec ∧ p.Annotations = inst.Annotations ∧
        p.Labels.lookup c.RootPolicyLabel = some (c.FullNameForPolicy inst)) →
      (∀ d ∈ ds, (ps.filter
        (Policy.hasKey d.ClusterNamespace (c.FullNameForPolicy inst))).length = 1) ∧
      (replicasOf c inst ps).length = ((ds.map (fun d => d.ClusterNamespace)).dedup).length ∧
      (∀ p ∈ replicasOf c inst ps, p.Spec = inst.Spec ∧ p.Annotations = inst.Annotations ∧
        p.Labels.lookup c.RootPolicyLabel = some (c.FullNameForPolicy inst) ∧
        ∃ d ∈ ds, p.Namespace = d.ClusterNamespace) := by
    intro ps ds hnd hiff heq
    refine ⟨?_, ?_, ?_⟩
    · intro d hd
      rw [filter_hasKey_length]
      exact List.count_eq_one_of_mem hnd ((hiff _).mpr ⟨d, hd, rfl⟩)
    · have hset : ((replicasOf c inst ps).map (fun p => p.Namespace)).toFinset =
          (ds.map (fun d => d.ClusterNamespace)).toFinset := by
        ext ns
        simp only [List.mem_toFinset]
        rw [hiff ns]
        simp [List.mem_map]
      have h1 := List.toFinset_card_of_nodup hnd
      have h2 := List.card_toFinset (ds.map (fun d => d.ClusterNamespace))
      rw [hset, h2] at h1
      simpa using h1.symm
    · intro p hp
      obtain ⟨h1, h2, h3⟩ := heq p hp
      obtain ⟨d, hd, hns⟩ := (hiff p.Namespace).mp (List.mem_map.mpr ⟨p, hp, rfl⟩)
      exact ⟨h1, h2, h3, d, hd, hns.symm⟩
  unfold handleRootPolicy Client.ListPlacementBindings at hok ⊢
  simp only [hen, Bool.false_eq_true, if_false] at hok ⊢
  cases hf : r.client.fault with
  | some e => rw [hf] at hok; simp at hok
  | none =>
    rw [hf] at hok
    simp only at hok ⊢
    obtain ⟨hnd, hiff, heq⟩ := bindingLoop_replicas c inst _ _
      (by simpa [record_policies] using hinit) rfl hok
    exact key _ _ hnd hiff heq

/-- Witness for the amended C1: the two decisions `c1/c1` and `c2/c1`. -/
theorem handleRootPolicy_one_replica_per_namespace_witness :
    (∀ d ∈ (handleRootPolicy exCommon exRoot exTwoTargets).allDecisions,
      ((handleRootPolicy exCommon exRoot exTwoTargets).r.client.policies.filter
        (Policy.hasKey d.ClusterNamespace (exCommon.FullNameForPolicy exRoot))).length = 1) ∧
    (replicasOf exCommon exRoot (handleRootPolicy exCommon exRoot exTwoTargets).r.client.policies).length =
      (((handleRootPolicy exCommon exRoot exTwoTargets).allDecisions.map
        (fun d => d.ClusterNamespace)).dedup).length ∧
    (∀ p ∈ replicasOf exCommon exRoot (handleRootPolicy exCommon exRoot exTwoTargets).r.client.policies,
      p.Spec = exRoot.Spec ∧ p.Annotations = exRoot.Annotations ∧
      p.Labels.lookup exCommon.RootPolicyLabel = some (exCommon.FullNameForPolicy exRoot) ∧
      ∃ d ∈ (handleRootPolicy exCommon exRoot exTwoTargets).allDecisions,
        p.Namespace = d.ClusterNamespace) :=
  handleRootPolicy_one_replica_per_namespace exCommon exRoot exTwoTargets (by decide) rfl
    (by decide)

/-! ## Update on drift -/

theorem find?_replace_other (ps : List Policy) (ns ns0 name : String) (p' : Policy)
    (hne : ns ≠ ns0) (hk : Policy.hasKey ns name p' = true) :
    (ps.map (fun q => if Policy.hasKey ns name q then p' else q)).find? (Policy.hasKey ns0 name)
      = ps.find? (Policy.hasKey ns0 name) := by
  have hk' := (hasKey_iff _ _ _).mp hk
  have hp' : Policy.hasKey ns0 name p' = false := by
    simp [Policy.hasKey, hk'.1, hne]
  induction ps with
  | nil => rfl
  | cons q rest ih =>
    by_cases hq : Policy.hasKey ns name q = true
    · have hq' := (hasKey_iff _ _ _).mp hq
      have hq0 : Policy.hasKey ns0 name q = false := by
        simp [Policy.hasKey, hq'.1, hne]
      simp only [List.map_cons, hq, if_true, List.find?, hp', hq0]
      exact ih
    · simp only [Bool.not_eq_true] at hq
      simp only [List.map_cons, hq, Bool.false_eq_true, if_false, List.find?]
      cases Policy.hasKey ns0 name q with
      | true => rfl
      | false => exact ih

theorem find?_append_other (ps : List Policy) (ns0 name : String) (p' : Policy)
    (hk : Policy.hasKey ns0 name p' = false) :
    (ps ++ [p']).find? (Policy.hasKey ns0 name) = ps.find? (Policy.hasKey ns0 name) := by
  rw [List.find?_append]
  cases ps.find? (Policy.hasKey ns0 name) with
  | some q => rfl
  | none => simp [List.find?, hk]

/-- The invariant behind C4, for a replica `p0` stored in namespace `ns0` whose spec differs from
the root's: until a decision for `ns0` is handled the replica is untouched and not updated;
from then on it mirrors the root and has been updated exactly once. -/
theorem bindingLoop_drift (c : Common) (inst : Policy) (cl0 : Client) (ns0 : String)
    (p0 : Policy) (hdrift : p0.Spec ≠ inst.Spec) (pbs : List PlacementBinding) (st : Pass)
    (h0 : ∃ calls, st.r.client.log = cl0.log ++ calls ∧
      calls.countP (LogEntry.updatesKey ns0 (c.FullNameForPolicy inst)) = 0)
    (hstored : st.r.client.stored ns0 (c.FullNameForPolicy inst) = some p0)
    (hdec : st.allDecisions = [])
    (hok : (bindingLoop c inst pbs st).1 = none) :
    ∃ calls, (bindingLoop c inst pbs st).2.r.client.log = cl0.log ++ calls ∧
      ((∃ d ∈ (bindingLoop c inst pbs st).2.allDecisions, d.ClusterNamespace = ns0) →
        (∃ p, (bindingLoop c inst pbs st).2.r.client.stored ns0 (c.FullNameForPolicy inst) = some p ∧
          Common.CompareSpecAndAnnotation inst p = true) ∧
        calls.countP (LogEntry.updatesKey ns0 (c.FullNameForPolicy inst)) = 1) := by
  have hp0 : Common.CompareSpecAndAnnotation inst p0 = false := by
    cases hc : Common.CompareSpecAndAnnotation inst p0 with
    | false => rfl
    | true => exact absurd ((compare_iff _ _).mp hc).2.symm hdrift
  have main := bindingLoop_induction c inst
    (fun st => ∃ calls, st.r.client.log = cl0.log ++ calls ∧
      ((∃ d ∈ st.allDecisions, d.ClusterNamespace = ns0) →
        (∃ p, st.r.client.stored ns0 (c.FullNameForPolicy inst) = some p ∧
          Common.CompareSpecAndAnnotation inst p = true) ∧
        calls.countP (LogEntry.updatesKey ns0 (c.FullNameForPolicy inst)) = 1) ∧
      ((¬ ∃ d ∈ st.allDecisions, d.ClusterNamespace = ns0) →
        st.r.client.stored ns0 (c.FullNameForPolicy inst) = some p0 ∧
        calls.countP (LogEntry.updatesKey ns0 (c.FullNameForPolicy inst)) = 0))
    (fun o => o.1 = none → ∃ calls, o.2.r.client.log = cl0.log ++ calls ∧
      ((∃ d ∈ o.2.allDecisions, d.ClusterNamespace = ns0) →
        (∃ p, o.2.r.client.stored ns0 (c.FullNameForPolicy inst) = some p ∧
          Common.CompareSpecAndAnnotation inst p = true) ∧
        calls.countP (LogEntry.updatesKey ns0 (c.FullNameForPolicy inst)) = 1))
    ?_ ?_ ?_ ?_ ?_ pbs st ?_ hok
  · exact main
  · rintro st ⟨calls, hl, h1, _⟩ _
    exact ⟨calls, hl, h1⟩
  · intro st pb e _ _ _ h; cases h
  · rintro st pb res plrName ⟨calls, hl, h1, h2⟩ _
    refine ⟨calls ++ [⟨.GetPlacementRule inst.Namespace pb.PlacementRef.Name, res⟩], ?_, ?_, ?_⟩
    · simp [Client.record, hl]
    · intro hT
      simpa [Client.stored, record_policies, List.countP_append, LogEntry.updatesKey] using h1 hT
    · intro hT
      simpa [Client.stored, record_policies, List.countP_append, LogEntry.updatesKey] using h2 hT
  · rintro st d r ⟨calls, hl, h1, h2⟩ hd
    have hrun := handleDecision_run c inst d st.r
    rw [hd] at hrun
    have hTiff : d.ClusterNamespace ≠ ns0 →
        ((∃ d' ∈ st.allDecisions ++ [d], d'.ClusterNamespace = ns0) ↔
          ∃ d' ∈ st.allDecisions, d'.ClusterNamespace = ns0) := by
      intro hne
      constructor
      · rintro ⟨d', hd', hns⟩
        rcases List.mem_append.mp hd' with hd' | hd'
        · exact ⟨d', hd', hns⟩
        · simp only [List.mem_singleton] at hd'
          subst hd'
          exact absurd hns hne
      · rintro ⟨d', hd', hns⟩
        exact ⟨d', List.mem_append_left _ hd', hns⟩
    by_cases hns : d.ClusterNamespace = ns0
    · have hT' : ∃ d' ∈ st.allDecisions ++ [d], d'.ClusterNamespace = ns0 :=
        ⟨d, by simp, hns⟩
      subst hns
      cases hrun with
      | upToDate p hf hp hcmp =>
        refine ⟨calls ++ [⟨.GetPolicy d.ClusterNamespace (c.FullNameForPolicy inst), none⟩],
          by simp [Client.record, hl], fun _ => ?_, fun hno => absurd hT' hno⟩
        by_cases hT : ∃ d' ∈ st.allDecisions, d'.ClusterNamespace = d.ClusterNamespace
        · simpa [Client.stored, record_policies, List.countP_append, LogEntry.updatesKey]
            using h1 hT
        · have := (h2 hT).1
          unfold Client.stored at this
          rw [hp] at this
          cases this
          rw [hp0] at hcmp; cases hcmp
      | updated p hf hp hne hf2 =>
        refine ⟨calls ++ [⟨.GetPolicy d.ClusterNamespace (c.FullNameForPolicy inst), none⟩,
          ⟨.Update (patched inst p), none⟩],
          by simp [Client.record, hl], fun _ => ?_, fun hno => absurd hT' hno⟩
        by_cases hT : ∃ d' ∈ st.allDecisions, d'.ClusterNamespace = d.ClusterNamespace
        · obtain ⟨⟨q, hq, hqc⟩, _⟩ := h1 hT
          unfold Client.stored at hq
          rw [hp] at hq
          cases hq
          rw [hqc] at hne; cases hne
        · have hk := hasKey_patched _ _ inst p (List.find?_some hp)
          refine ⟨⟨patched inst p, find?_replace _ _ _ _ _ hp hk, compare_patched _ _⟩, ?_⟩
          simp [List.countP_append, List.countP_cons, LogEntry.updatesKey, (h2 hT).2, hk]
      | created hf hp hf2 =>
        by_cases hT : ∃ d' ∈ st.allDecisions, d'.ClusterNamespace = d.ClusterNamespace
        · obtain ⟨⟨q, hq, _⟩, _⟩ := h1 hT
          unfold Client.stored at hq
          rw [hp] at hq; cases hq
        · have := (h2 hT).1
          unfold Client.stored at this
          rw [hp] at this; cases this
    · have hiff := hTiff hns
      cases hrun with
      | upToDate p hf hp hcmp =>
        refine ⟨calls ++ [⟨.GetPolicy d.ClusterNamespace (c.FullNameForPolicy inst), none⟩],
          by simp [Client.record, hl], fun hT => ?_, fun hT => ?_⟩
        · simpa [Client.stored, record_policies, List.countP_append, LogEntry.updatesKey]
            using h1 (hiff.mp hT)
        · simpa [Client.stored, record_policies, List.countP_append, LogEntry.updatesKey]
            using h2 (fun h => hT (hiff.mpr h))
      | updated p hf hp hne hf2 =>
        have hk := hasKey_patched _ _ inst p (List.find?_some hp)
        have hk0 : Policy.hasKey ns0 (c.FullNameForPolicy inst) (patched inst p) = false := by
          have := (hasKey_iff _ _ _).mp hk
          simp [Policy.hasKey, this.1, hns]
        have hst : ∀ x, st.r.client.stored ns0 (c.FullNameForPolicy inst) = x →
            (st.r.client.policies.map (fun q =>
              if Policy.hasKey d.ClusterNamespace (c.FullNameForPolicy inst) q
              then patched inst p else q)).find? (Policy.hasKey ns0 (c.FullNameForPolicy inst)) = x := by
          intro x hx
          rw [find?_replace_other _ _ _ _ _ hns hk]
          exact hx
        refine ⟨calls ++ [⟨.GetPolicy d.ClusterNamespace (c.FullNameForPolicy inst), none⟩,
          ⟨.Update (patched inst p), none⟩],
          by simp [Client.record, hl], fun hT => ?_, fun hT => ?_⟩
        · obtain ⟨⟨q, hq, hqc⟩, hcnt⟩ := h1 (hiff.mp hT)
          refine ⟨⟨q, hst _ hq, hqc⟩, ?_⟩
          simp [List.countP_append, List.countP_cons, LogEntry.updatesKey, hcnt, hk0]
        · obtain ⟨hq, hcnt⟩ := h2 (fun h => hT (hiff.mpr h))
          refine ⟨hst _ hq, ?_⟩
          simp [List.countP_append, List.countP_cons, LogEntry.updatesKey, hcnt, hk0]
      | created hf hp hf2 =>
        have hk0 : Policy.hasKey ns0 (c.FullNameForPolicy inst) (newReplica c inst d) = false := by
          simp [Policy.hasKey, newReplica, hns]
        have hst : ∀ x, st.r.client.stored ns0 (c.FullNameForPolicy inst) = x →
            (st.r.client.policies ++ [newReplica c inst d]).find?
              (Policy.hasKey ns0 (c.FullNameForPolicy inst)) = x := by
          intro x hx
          rw [find?_append_other _ _ _ _ hk0]
          exact hx
        refine ⟨calls ++ [⟨.GetPolicy d.ClusterNamespace (c.FullNameForPolicy inst), some .NotFound⟩,
          ⟨.Create (newReplica c inst d), none⟩],
          by simp [Client.record, hl], fun hT => ?_, fun hT => ?_⟩
        · obtain ⟨⟨q, hq, hqc⟩, hcnt⟩ := h1 (hiff.mp hT)
          refine ⟨⟨q, hst _ hq, hqc⟩, ?_⟩
          simp [List.countP_append, List.countP_cons, LogEntry.updatesKey, hcnt]
        · obtain ⟨hq, hcnt⟩ := h2 (fun h => hT (hiff.mpr h))
          refine ⟨hst _ hq, ?_⟩
          simp [List.countP_append, List.countP_cons, LogEntry.updatesKey, hcnt]
  · intro st d e r _ _ h; cases h
  · obtain ⟨calls, hl, hc⟩ := h0
    refine ⟨calls, hl, ?_, fun _ => ⟨hstored, hc⟩⟩
    rintro ⟨d, hd, _⟩
    rw [hdec] at hd
    cases hd

/-- C4: when the replica stored in the cluster namespace of a decision of the pass has a spec
that differs from the root's, a pass for the enabled root that returns `nil` issues exactly one
update of that replica, however many decisions name its namespace, and the replica stored
afterwards has the spec and the annotations of the root. -/
theorem handleRootPolicy_update_on_drift (c : Common) (inst : Policy) (r : ReconcilePolicy)
    (d : PlacementDecision) (p0 : Policy) (hen : inst.Spec.Disabled = false)
    (hstored : r.client.stored d.ClusterNamespace (c.FullNameForPolicy inst) = some p0)
    (hdrift : p0.Spec ≠ inst.Spec)
    (hd : d ∈ (handleRootPolicy c inst r).allDecisions)
    (hok : (handleRootPolicy c inst r).err = none) :
    (newCalls r.client (handleRootPolicy c inst r).r.client).countP
      (LogEntry.updatesKey d.ClusterNamespace (c.FullNameForPolicy inst)) = 1 ∧
    ∃ p, (handleRootPolicy c inst r).r.client.stored d.ClusterNamespace
        (c.FullNameForPolicy inst) = some p ∧
      p.Spec = inst.Spec ∧ p.Annotations = inst.Annotations := by
  unfold handleRootPolicy Client.ListPlacementBindings at hok hd ⊢
  simp only [hen, Bool.false_eq_true, if_false] at hok hd ⊢
  cases hf : r.client.fault with
  | some e => rw [hf] at hok; simp at hok
  | none =>
    rw [hf] at hok hd
    simp only at hok hd ⊢
    obtain ⟨calls, hl, hfin⟩ := bindingLoop_drift c inst r.client d.ClusterNamespace p0 hdrift _ _
      ⟨[⟨.ListPlacementBindings inst.Namespace, none⟩], by simp [Client.record],
        by simp [LogEntry.updatesKey]⟩
      (by simpa [Client.stored, record_policies] using hstored) rfl hok
    obtain ⟨⟨p, hp, hcmp⟩, hcnt⟩ := hfin ⟨d, hd, rfl⟩
    rw [newCalls_append _ _ _ hl]
    have := (compare_iff _ _).mp hcmp
    exact ⟨hcnt, p, hp, this.2.symm, this.1.symm⟩

/-- Witness for C4: the drifted replica in `c1`, named by the two decisions of the rule. -/
theorem handleRootPolicy_update_on_drift_witness :
    (handleRootPolicy exCommon exRoot exDriftedStore).allDecisions.length = 2 ∧
    ((newCalls exDriftedStore.client (handleRootPolicy exCommon exRoot exDriftedStore).r.client).countP
      (LogEntry.updatesKey exDecision.ClusterNamespace (exCommon.FullNameForPolicy exRoot)) = 1 ∧
    ∃ p, (handleRootPolicy exCommon exRoot exDriftedStore).r.client.stored
        exDecision.ClusterNamespace (exCommon.FullNameForPolicy exRoot) = some p ∧
      p.Spec = exRoot.Spec ∧ p.Annotations = exRoot.Annotations) :=
  ⟨by decide, handleRootPolicy_update_on_drift exCommon exRoot exDriftedStore exDecision exDrifted
    (by decide) rfl (by decide) (by decide) (by decide)⟩

/-! ## The object submitted to update -/

/-- C15: when an object is stored at the replica identity and differs from the root in spec or
annotations, every update `handleDecision` submits carries the root's annotations and spec and
the name, namespace, labels, status and resource version of the stored object; and when the get
is served, the calls are that get followed by one such update. -/
theorem handleDecision_update_object (c : Common) (inst : Policy) (d : PlacementDecision)
    (r : ReconcilePolicy) (p : Policy)
    (hstored : r.client.stored d.ClusterNamespace (c.FullNameForPolicy inst) = some p)
    (hdiff : p.Spec ≠ inst.Spec ∨ p.Annotations ≠ inst.Annotations) :
    (∀ x ∈ newCalls r.client (handleDecision c inst d r).2.client, ∀ obj, x.call = .Update obj →
      obj.Annotations = inst.Annotations ∧ obj.Spec = inst.Spec ∧ obj.Name = p.Name ∧
      obj.Namespace = p.Namespace ∧ obj.Labels = p.Labels ∧ obj.Status = p.Status ∧
      obj.ResourceVersion = p.ResourceVersion) ∧
    (r.client.fault = none → ∃ obj res,
      newCalls r.client (handleDecision c inst d r).2.client =
        [⟨.GetPolicy d.ClusterNamespace (c.FullNameForPolicy inst), none⟩, ⟨.Update obj, res⟩]) := by
  have hcmp : Common.CompareSpecAndAnnotation inst p = false := by
    cases hc : Common.CompareSpecAndAnnotation inst p with
    | false => rfl
    | true =>
      have := (compare_iff _ _).mp hc
      rcases hdiff with h | h
      · exact absurd this.2.symm h
      · exact absurd this.1.symm h
  have hrun := handleDecision_run c inst d r
  generalize handleDecision c inst d r = out at hrun
  unfold Client.stored at hstored
  cases hrun with
  | getFailed e hne hf =>
    rw [newCalls_append _ _ _ (rfl : (r.client.record _ _).log = r.client.log ++ [_])]
    refine ⟨?_, fun h => by rw [hf] at h; cases h⟩
    intro x hx obj hobj
    simp only [List.mem_singleton] at hx
    subst hx
    cases hobj
  | upToDate q hf hq heq => rw [hstored] at hq; cases hq; rw [hcmp] at heq; cases heq
  | updateFailed q e hf hq hne hf2 =>
    rw [hstored] at hq; cases hq
    have hl : ((r.client.record (.GetPolicy d.ClusterNamespace (c.FullNameForPolicy inst))
        none).record (.Update (patched inst p)) (some e)).log = r.client.log ++
          [⟨.GetPolicy d.ClusterNamespace (c.FullNameForPolicy inst), none⟩,
            ⟨.Update (patched inst p), some e⟩] := by simp [Client.record]
    rw [newCalls_append _ _ _ hl]
    refine ⟨?_, fun _ => ⟨patched inst p, some e, rfl⟩⟩
    intro x hx obj hobj
    simp only [List.mem_cons, List.mem_singleton, List.not_mem_nil, or_false] at hx
    rcases hx with rfl | rfl
    · cases hobj
    · cases hobj
      exact ⟨rfl, rfl, rfl, rfl, rfl, rfl, rfl⟩
  | updated q hf hq hne hf2 =>
    rw [hstored] at hq; cases hq
    have hl : ({ (r.client.record (.GetPolicy d.ClusterNamespace (c.FullNameForPolicy inst))
        none).record (.Update (patched inst p)) none with
          policies := (r.client.policies.map (fun q =>
            if Policy.hasKey d.ClusterNamespace (c.FullNameForPolicy inst) q
            then patched inst p else q)) } : Client).log = r.client.log ++
          [⟨.GetPolicy d.ClusterNamespace (c.FullNameForPolicy inst), none⟩,
            ⟨.Update (patched inst p), none⟩] := by simp [Client.record]
    rw [newCalls_append _ _ _ hl]
    refine ⟨?_, fun _ => ⟨patched inst p, none, rfl⟩⟩
    intro x hx obj hobj
    simp only [List.mem_cons, List.mem_singleton, List.not_mem_nil, or_false] at hx
    rcases hx with rfl | rfl
    · cases hobj
    · cases hobj
      exact ⟨rfl, rfl, rfl, rfl, rfl, rfl, rfl⟩
  | createFailed e hf hq hf2 => rw [hstored] at hq; cases hq
  | created hf hq hf2 => rw [hstored] at hq; cases hq

/-- Witness for C15: the drifted replica of the sample root. -/
theorem handleDecision_update_object_witness :
    (∀ x ∈ newCalls exDriftedStore.client
        (handleDecision exCommon exRoot exDecision exDriftedStore).2.client,
      ∀ obj, x.call = .Update obj →
      obj.Annotations = exRoot.Annotations ∧ obj.Spec = exRoot.Spec ∧ obj.Name = exDrifted.Name ∧
      obj.Namespace = exDrifted.Namespace ∧ obj.Labels = exDrifted.Labels ∧
      obj.Status = exDrifted.Status ∧ obj.ResourceVersion = exDrifted.ResourceVersion) ∧
    (exDriftedStore.client.fault = none → ∃ obj res,
      newCalls exDriftedStore.client
          (handleDecision exCommon exRoot exDecision exDriftedStore).2.client =
        [⟨.GetPolicy exDecision.ClusterNamespace (exCommon.FullNameForPolicy exRoot), none⟩,
          ⟨.Update obj, res⟩]) :=
  handleDecision_update_object exCommon exRoot exDecision exDriftedStore exDrifted rfl
    (Or.inl (by decide))

/-! ## The calls of the clean-up -/

/-- The three ways a status update can run. -/
theorem statusUpdate_cases (cl : Client) (obj : Policy) :
    (∃ e, e.IsNotFound = false ∧
      cl.StatusUpdate obj = (some e, cl.record (.StatusUpdate obj) (some e))) ∨
    (cl.StatusUpdate obj = (none, { cl.record (.StatusUpdate obj) none with
        policies := cl.policies.map (fun p =>
          if Policy.hasKey obj.Namespace obj.Name p then { p with Status := obj.Status } else p) })) ∨
    (cl.StatusUpdate obj = (some .NotFound, cl.record (.StatusUpdate obj) (some .NotFound))) := by
  unfold Client.StatusUpdate
  cases hf : cl.fault with
  | some e => exact Or.inl ⟨e, fault_ne_notFound _ _ hf, rfl⟩
  | none =>
    cases hany : cl.policies.any (Policy.hasKey obj.Namespace obj.Name) with
    | true => exact Or.inr (Or.inl (by simp))
    | false => exact Or.inr (Or.inr (by simp))

theorem cleanupTrace_cons (err : Option StoreError) (x : LogEntry) (calls : List LogEntry)
    (hx : x.failed = false) (h : cleanupTrace err calls) : cleanupTrace err (x :: calls) := by
  cases err with
  | none =>
    intro y hy
    rcases List.mem_cons.mp hy with rfl | hy
    · exact hx
    · exact h y hy
  | some e =>
    obtain ⟨pre, call, hc, hpre, hne⟩ := h
    refine ⟨x :: pre, call, by simp [hc], ?_, hne⟩
    intro y hy
    rcases List.mem_cons.mp hy with rfl | hy
    · exact hx
    · exact hpre y hy

/-- The calls of the delete loop: deletes only, one per listed object when the loop ends
without error, and nothing is added to the stored policies. -/
theorem deleteLoop_trace (items : List Policy) :
    ∀ (cl : Client), ∃ calls, (deleteLoop items cl).2.log = cl.log ++ calls ∧
      cleanupTrace (deleteLoop items cl).1 calls ∧
      (∀ x ∈ calls, x.call.isDelete = true) ∧
      ((deleteLoop items cl).1 = none → calls.filterMap LogEntry.deleted = items) ∧
      (∀ p ∈ (deleteLoop items cl).2.policies, p ∈ cl.policies) := by
  induction items with
  | nil =>
    intro cl
    exact ⟨[], by simp [deleteLoop], by simp [deleteLoop, cleanupTrace], by simp,
      by simp [deleteLoop], by simp [deleteLoop]⟩
  | cons plc rest ih =>
    intro cl
    unfold deleteLoop
    rcases delete_cases cl plc with ⟨e, hne, heq⟩ | heq | ⟨_, heq⟩
    · rw [heq]
      simp only [hne, Bool.not_false, if_true]
      exact ⟨[⟨.Delete plc, some e⟩], by simp [Client.record], ⟨[], _, rfl, by simp, hne⟩,
        by simp [Call.isDelete], by simp, by simp [record_policies]⟩
    · rw [heq]
      simp only
      obtain ⟨calls, hl, ht, hd, hall, hsub⟩ := ih
        { cl.record (.Delete plc) none with
          policies := cl.policies.filter (fun p => !Policy.hasKey plc.Namespace plc.Name p) }
      refine ⟨⟨.Delete plc, none⟩ :: calls, ?_, cleanupTrace_cons _ _ _ rfl ht, ?_, ?_, ?_⟩
      · rw [hl]; simp [Client.record]
      · intro x hx
        rcases List.mem_cons.mp hx with rfl | hx
        · rfl
        · exact hd x hx
      · intro hok
        simp [LogEntry.deleted, hall hok]
      · intro p hp
        exact (List.mem_filter.mp (hsub p hp)).1
    · rw [heq]
      simp only [StoreError.IsNotFound, Bool.not_true, Bool.false_eq_true, if_false]
      obtain ⟨calls, hl, ht, hd, hall, hsub⟩ := ih (cl.record (.Delete plc) (some .NotFound))
      refine ⟨⟨.Delete plc, some .NotFound⟩ :: calls, ?_, cleanupTrace_cons _ _ _ rfl ht, ?_, ?_, ?_⟩
      · rw [hl]; simp [Client.record]
      · intro x hx
        rcases List.mem_cons.mp hx with rfl | hx
        · rfl
        · exact hd x hx
      · intro hok
        simp [LogEntry.deleted, hall hok]
      · intro p hp
        exact hsub p hp

/-- The calls of a pass for a disabled root: the list, then deletes, then at most one status
update, which comes last and only after a served list and deletes without fatal error. -/
theorem handleRootPolicy_cleanup_trace (c : Common) (inst : Policy) (r : ReconcilePolicy)
    (hdis : inst.Spec.Disabled = true) :
    ∃ lres dcalls tail,
      (handleRootPolicy c inst r).r.client.log =
        r.client.log ++ (⟨.ListPolicies (c.LabelsForRootPolicy inst), lres⟩ :: dcalls ++ tail) ∧
      cleanupTrace (handleRootPolicy c inst r).err
        (⟨.ListPolicies (c.LabelsForRootPolicy inst), lres⟩ :: dcalls ++ tail) ∧
      (∀ x ∈ dcalls, x.call.isDelete = true) ∧
      (tail = [] ∨ ∃ res, tail = [⟨.StatusUpdate { inst with Status := PolicyStatus.zero }, res⟩] ∧
        lres = none ∧ (∀ x ∈ dcalls, x.failed = false) ∧
        dcalls.filterMap LogEntry.deleted =
          r.client.policies.filter (matchesLabels (c.LabelsForRootPolicy inst))) ∧
      ((handleRootPolicy c inst r).err = none → tail ≠ []) ∧
      (handleRootPolicy c inst r).allDecisions = [] ∧
      (handleRootPolicy c inst r).placement = [] ∧
      (∀ p ∈ (handleRootPolicy c inst r).r.client.policies, ∃ q ∈ r.client.policies,
        p = q ∨ p = { q with Status := PolicyStatus.zero }) := by
  unfold handleRootPolicy Client.ListPolicies
  simp only [hdis, if_true]
  cases hf : r.client.fault with
  | some e =>
    have hne := fault_ne_notFound _ _ hf
    refine ⟨some e, [], [], by simp [Client.record], ⟨[], _, rfl, by simp, hne⟩, by simp,
      Or.inl rfl, by simp, rfl, rfl, ?_⟩
    intro p hp
    exact ⟨p, by simpa [record_policies] using hp, Or.inl rfl⟩
  | none =>
    simp only
    obtain ⟨dcalls, hl, ht, hd, hall, hsub⟩ :=
      deleteLoop_trace (r.client.policies.filter (matchesLabels (c.LabelsForRootPolicy inst)))
        (r.client.record (.ListPolicies (c.LabelsForRootPolicy inst)) none)
    cases hdel : deleteLoop (r.client.policies.filter (matchesLabels (c.LabelsForRootPolicy inst)))
        (r.client.record (.ListPolicies (c.LabelsForRootPolicy inst)) none) with
    | mk derr cl2 =>
      rw [hdel] at hl ht hall hsub
      simp only at hl ht hall hsub
      cases derr with
      | some e =>
        simp only
        refine ⟨none, dcalls, [], ?_, ?_, hd, Or.inl rfl, by simp, trivial, trivial, ?_⟩
        · rw [hl]; simp [Client.record]
        · simpa using cleanupTrace_cons (some e)
            ⟨.ListPolicies (c.LabelsForRootPolicy inst), none⟩ dcalls rfl ht
        · intro p hp
          exact ⟨p, by simpa [record_policies] using hsub p hp, Or.inl rfl⟩
      | none =>
        simp only
        have hnf : ∀ x ∈ dcalls, x.failed = false := ht
        have hlog : ∀ res, r.client.log ++ [⟨.ListPolicies (c.LabelsForRootPolicy inst), none⟩] ++
            dcalls ++ [⟨.StatusUpdate { inst with Status := PolicyStatus.zero }, res⟩] =
            r.client.log ++ (⟨.ListPolicies (c.LabelsForRootPolicy inst), none⟩ :: dcalls ++
              [⟨.StatusUpdate { inst with Status := PolicyStatus.zero }, res⟩]) := by
          intro res; simp
        have hbefore : ∀ x ∈ (⟨.ListPolicies (c.LabelsForRootPolicy inst), none⟩ :: dcalls :
            List LogEntry), x.failed = false := by
          intro x hx
          rcases List.mem_cons.mp hx with rfl | hx
          · rfl
          · exact hnf x hx
        rcases statusUpdate_cases cl2 { inst with Status := PolicyStatus.zero } with
          ⟨e, hne, heq⟩ | heq | heq
        · rw [heq]
          simp only [hne, Bool.not_false, if_true]
          refine ⟨none, dcalls, [⟨.StatusUpdate { inst with Status := PolicyStatus.zero }, some e⟩],
            ?_, ⟨_, _, rfl, hbefore, hne⟩, hd, Or.inr ⟨some e, rfl, rfl, hnf, hall rfl⟩,
            by simp, trivial, trivial, ?_⟩
          · rw [← hlog]; simp [Client.record, hl]
          · intro p hp
            exact ⟨p, by simpa [record_policies] using hsub p hp, Or.inl rfl⟩
        · rw [heq]
          simp only
          refine ⟨none, dcalls, [⟨.StatusUpdate { inst with Status := PolicyStatus.zero }, none⟩],
            ?_, ?_, hd, Or.inr ⟨none, rfl, rfl, hnf, hall rfl⟩, by simp, trivial, trivial, ?_⟩
          · rw [← hlog]; simp [Client.record, hl]
          · intro x hx
            rcases List.mem_append.mp hx with hx | hx
            · exact hbefore x hx
            · simp only [List.mem_singleton] at hx
              subst hx; rfl
          · intro p hp
            simp only [List.mem_map] at hp
            obtain ⟨q, hq, rfl⟩ := hp
            refine ⟨q, by simpa [record_policies] using hsub q hq, ?_⟩
            by_cases hk : Policy.hasKey inst.Namespace inst.Name q = true
            · simp [hk]
            · simp [hk]
        · rw [heq]
          simp only [StoreError.IsNotFound, Bool.not_true, Bool.false_eq_true, if_false]
          refine ⟨none, dcalls,
            [⟨.StatusUpdate { inst with Status := PolicyStatus.zero }, some .NotFound⟩],
            ?_, ?_, hd, Or.inr ⟨some .NotFound, rfl, rfl, hnf, hall rfl⟩, by simp, trivial, trivial, ?_⟩
          · rw [← hlog]; simp [Client.record, hl]
          · intro x hx
            rcases List.mem_append.mp hx with hx | hx
            · exact hbefore x hx
            · simp only [List.mem_singleton] at hx
              subst hx; rfl
          · intro p hp
            exact ⟨p, by simpa [record_policies] using hsub p hp, Or.inl rfl⟩

theorem deleteLoop_notFound (plc : Policy) (rest : List Policy) (cl : Client)
    (h : (cl.Delete plc).1 = some .NotFound) :
    deleteLoop (plc :: rest) cl = deleteLoop rest (cl.record (.Delete plc) (some .NotFound)) := by
  rw [deleteLoop]
  rcases delete_cases cl plc with ⟨e, hne, heq⟩ | heq | ⟨_, heq⟩
  · rw [heq] at h
    simp only [Option.some.injEq] at h
    subst h
    cases hne
  · rw [heq] at h
    cases h
  · rw [heq]
    simp [StoreError.IsNotFound]

/-- C11: in a pass for a disabled root, a delete that reports not-found lets the delete loop go
on with the next listed object; a call that returns any other error is the last call of the
pass and its error is the one `handleRootPolicy` returns; an error returned is never not-found
and is that of the last call; a status update is only issued as the last call, after a list
and deletes none of which failed; and a pass that returns `nil` has issued one delete per
listed object, in order. -/
theorem handleRootPolicy_cleanup_errors (c : Common) (inst : Policy) (r : ReconcilePolicy)
    (hdis : inst.Spec.Disabled = true) :
    (∀ plc rest cl, (cl.Delete plc).1 = some .NotFound →
      deleteLoop (plc :: rest) cl = deleteLoop rest (cl.record (.Delete plc) (some .NotFound))) ∧
    (handleRootPolicy c inst r).r.client.log =
      r.client.log ++ newCalls r.client (handleRootPolicy c inst r).r.client ∧
    (∀ pre x post, newCalls r.client (handleRootPolicy c inst r).r.client = pre ++ x :: post →
      x.failed = true → post = [] ∧ (handleRootPolicy c inst r).err = x.result) ∧
    (∀ e, (handleRootPolicy c inst r).err = some e → e.IsNotFound = false ∧
      ∃ pre call, newCalls r.client (handleRootPolicy c inst r).r.client = pre ++ [⟨call, some e⟩]) ∧
    (∀ pre x post, newCalls r.client (handleRootPolicy c inst r).r.client = pre ++ x :: post →
      x.call.isStatusUpdate = true → post = [] ∧ ∀ y ∈ pre, y.failed = false) ∧
    ((handleRootPolicy c inst r).err = none →
      (newCalls r.client (handleRootPolicy c inst r).r.client).filterMap LogEntry.deleted =
        r.client.policies.filter (matchesLabels (c.LabelsForRootPolicy inst))) := by
  obtain ⟨lres, dcalls, tail, hl, ht, hd, htail, hok, _, _, _⟩ :=
    handleRootPolicy_cleanup_trace c inst r hdis
  rw [newCalls_append _ _ _ hl]
  refine ⟨deleteLoop_notFound, hl, ?_, ?_, ?_, ?_⟩
  · intro pre x post hsplit hx
    cases herr : (handleRootPolicy c inst r).err with
    | none =>
      rw [herr] at ht
      have := ht x (by rw [hsplit]; simp)
      rw [this] at hx; cases hx
    | some e =>
      rw [herr] at ht
      obtain ⟨pre', call, hc, hb, _⟩ := ht
      have hnot : x ∉ pre' := fun hmem => by
        have := hb x hmem
        rw [this] at hx; cases hx
      obtain ⟨hpost, hxy⟩ := eq_last_of_not_mem pre' _ pre x post (hc ▸ hsplit) hnot
      exact ⟨hpost, by rw [hxy]⟩
  · intro e herr
    rw [herr] at ht
    obtain ⟨pre', call, hc, _, hne⟩ := ht
    exact ⟨hne, pre', call, hc⟩
  · intro pre x post hsplit hx
    have hnotd : ∀ y ∈ (⟨.ListPolicies (c.LabelsForRootPolicy inst), lres⟩ :: dcalls :
        List LogEntry), y.call.isStatusUpdate = false := by
      intro y hy
      rcases List.mem_cons.mp hy with rfl | hy
      · rfl
      · have := hd y hy
        cases hcall : y.call <;> simp [hcall, Call.isDelete] at this
        rfl
    rcases htail with rfl | ⟨res, rfl, hlres, hnf, _⟩
    · have hmem : x ∈ (⟨.ListPolicies (c.LabelsForRootPolicy inst), lres⟩ :: dcalls :
          List LogEntry) := by
        have : x ∈ pre ++ x :: post := by simp
        rw [← hsplit] at this
        simpa using this
      rw [hnotd x hmem] at hx; cases hx
    · have hnot : x ∉ (⟨.ListPolicies (c.LabelsForRootPolicy inst), lres⟩ :: dcalls :
          List LogEntry) := fun hmem => by
        rw [hnotd x hmem] at hx; cases hx
      have hsplit' : (⟨.ListPolicies (c.LabelsForRootPolicy inst), lres⟩ :: dcalls) ++
          [⟨.StatusUpdate { inst with Status := PolicyStatus.zero }, res⟩] = pre ++ x :: post := by
        rw [← hsplit]
      obtain ⟨hpost, hxy⟩ := eq_last_of_not_mem _ _ pre x post hsplit' hnot
      subst hpost
      refine ⟨rfl, ?_⟩
      have hpre : (⟨.ListPolicies (c.LabelsForRootPolicy inst), lres⟩ :: dcalls) = pre :=
        (List.append_inj' hsplit' (by simp)).1
      intro y hy
      rw [← hpre] at hy
      rcases List.mem_cons.mp hy with rfl | hy
      · simp [LogEntry.failed, hlres]
      · exact hnf y hy
  · intro herr
    rcases htail with rfl | ⟨res, rfl, _, _, hdel⟩
    · exact absurd rfl (hok herr)
    · simp [LogEntry.deleted, List.filterMap_append, hdel]

/-- Witness for C11: the delete of the only listed replica hits a conflict. -/
theorem handleRootPolicy_cleanup_errors_witness :
    (handleRootPolicy exCommon exDisabledRoot exDisabledFailing).err = some .Conflict ∧
    (exEmptyClient.Delete exReplica).1 = some .NotFound ∧
    ((∀ plc rest cl, (cl.Delete plc).1 = some .NotFound →
      deleteLoop (plc :: rest) cl = deleteLoop rest (cl.record (.Delete plc) (some .NotFound))) ∧
    (handleRootPolicy exCommon exDisabledRoot exDisabledFailing).r.client.log =
      exDisabledFailing.client.log ++
        newCalls exDisabledFailing.client
          (handleRootPolicy exCommon exDisabledRoot exDisabledFailing).r.client ∧
    (∀ pre x post, newCalls exDisabledFailing.client
        (handleRootPolicy exCommon exDisabledRoot exDisabledFailing).r.client = pre ++ x :: post →
      x.failed = true →
        post = [] ∧ (handleRootPolicy exCommon exDisabledRoot exDisabledFailing).err = x.result) ∧
    (∀ e, (handleRootPolicy exCommon exDisabledRoot exDisabledFailing).err = some e →
      e.IsNotFound = false ∧
      ∃ pre call, newCalls exDisabledFailing.client
        (handleRootPolicy exCommon exDisabledRoot exDisabledFailing).r.client =
          pre ++ [⟨call, some e⟩]) ∧
    (∀ pre x post, newCalls exDisabledFailing.client
        (handleRootPolicy exCommon exDisabledRoot exDisabledFailing).r.client = pre ++ x :: post →
      x.call.isStatusUpdate = true → post = [] ∧ ∀ y ∈ pre, y.failed = false) ∧
    ((handleRootPolicy exCommon exDisabledRoot exDisabledFailing).err = none →
      (newCalls exDisabledFailing.client
        (handleRootPolicy exCommon exDisabledRoot exDisabledFailing).r.client).filterMap
          LogEntry.deleted =
        exDisabledFailing.client.policies.filter
          (matchesLabels (exCommon.LabelsForRootPolicy exDisabledRoot)))) :=
  ⟨by decide, by decide,
    handleRootPolicy_cleanup_errors exCommon exDisabledRoot exDisabledFailing (by decide)⟩

/-- C13: a pass for a disabled root issues only the list of policies, deletes and the status
update, hence no create, no update, no list of bindings and no get; it handles no decision;
and every policy stored afterwards is one that was stored before, up to the status reset. -/
theorem handleRootPolicy_disabled_creates_nothing (c : Common) (inst : Policy)
    (r : ReconcilePolicy) (hdis : inst.Spec.Disabled = true) :
    (handleRootPolicy c inst r).r.client.log =
      r.client.log ++ newCalls r.client (handleRootPolicy c inst r).r.client ∧
    (∀ x ∈ newCalls r.client (handleRootPolicy c inst r).r.client,
      (x.call.isListPolicies || x.call.isDelete || x.call.isStatusUpdate) = true) ∧
    (∀ x ∈ newCalls r.client (handleRootPolicy c inst r).r.client,
      x.call.isCreate = false ∧ x.call.isUpdate = false) ∧
    (handleRootPolicy c inst r).allDecisions = [] ∧
    (∀ p ∈ (handleRootPolicy c inst r).r.client.policies, ∃ q ∈ r.client.policies,
      p = q ∨ p = { q with Status := PolicyStatus.zero }) := by
  obtain ⟨lres, dcalls, tail, hl, _, hd, htail, _, hdec, _, hpol⟩ :=
    handleRootPolicy_cleanup_trace c inst r hdis
  rw [newCalls_append _ _ _ hl]
  have hkind : ∀ x ∈ (⟨.ListPolicies (c.LabelsForRootPolicy inst), lres⟩ :: dcalls ++ tail :
      List LogEntry), (x.call.isListPolicies || x.call.isDelete || x.call.isStatusUpdate) = true := by
    intro x hx
    rcases List.mem_append.mp hx with hx | hx
    · rcases List.mem_cons.mp hx with rfl | hx
      · rfl
      · simp [hd x hx]
    · rcases htail with rfl | ⟨res, rfl, _⟩
      · cases hx
      · simp only [List.mem_singleton] at hx
        subst hx; rfl
  refine ⟨hl, hkind, ?_, hdec, hpol⟩
  intro x hx
  have := hkind x hx
  cases hcall : x.call <;>
    simp [hcall, Call.isListPolicies, Call.isDelete, Call.isStatusUpdate, Call.isCreate,
      Call.isUpdate] at this ⊢

/-- Witness for C13: the disabled sample root, with a binding and a rule for it in the store. -/
theorem handleRootPolicy_disabled_creates_nothing_witness :
    (handleRootPolicy exCommon exDisabledRoot exTwoTargets).r.client.log =
      exTwoTargets.client.log ++
        newCalls exTwoTargets.client (handleRootPolicy exCommon exDisabledRoot exTwoTargets).r.client ∧
    (∀ x ∈ newCalls exTwoTargets.client (handleRootPolicy exCommon exDisabledRoot exTwoTargets).r.client,
      (x.call.isListPolicies || x.call.isDelete || x.call.isStatusUpdate) = true) ∧
    (∀ x ∈ newCalls exTwoTargets.client (handleRootPolicy exCommon exDisabledRoot exTwoTargets).r.client,
      x.call.isCreate = false ∧ x.call.isUpdate = false) ∧
    (handleRootPolicy exCommon exDisabledRoot exTwoTargets).allDecisions = [] ∧
    (∀ p ∈ (handleRootPolicy exCommon exDisabledRoot exTwoTargets).r.client.policies,
      ∃ q ∈ exTwoTargets.client.policies, p = q ∨ p = { q with Status := PolicyStatus.zero }) :=
  handleRootPolicy_disabled_creates_nothing exCommon exDisabledRoot exTwoTargets (by decide)

/-! ## What a pass for an enabled root leaves alone -/

theorem filter_replace (ps : List Policy) (ns name : String) (p' : Policy) (P : Policy → Bool)
    (hP : ∀ q, Policy.hasKey ns name q = true → P q = false) (hp' : P p' = false) :
    (ps.map (fun q => if Policy.hasKey ns name q then p' else q)).filter P = ps.filter P := by
  induction ps with
  | nil => rfl
  | cons q rest ih =>
    by_cases hq : Policy.hasKey ns name q = true
    · simp [List.filter_cons, hq, hp', hP q hq, ih]
    · simp only [Bool.not_eq_true] at hq
      simp only [List.map_cons, hq, Bool.false_eq_true, if_false, List.filter_cons, ih]

/-- What one call of `handleDecision` leaves alone, whatever it returns: it issues no delete and
no status update, it keeps every stored key, and it keeps as they are the objects outside the
replica identity of the decision. -/
theorem handleDecision_frame (c : Common) (inst : Policy) (d : PlacementDecision)
    (r : ReconcilePolicy) :
    (∃ calls, (handleDecision c inst d r).2.client.log = r.client.log ++ calls ∧
      ∀ x ∈ calls, x.call.isDelete = false ∧ x.call.isStatusUpdate = false) ∧
    (∀ P : Policy → Bool,
      (∀ q, Policy.hasKey d.ClusterNamespace (c.FullNameForPolicy inst) q = true → P q = false) →
      (handleDecision c inst d r).2.client.policies.filter P = r.client.policies.filter P) ∧
    (∀ p ∈ r.client.policies, ∃ q ∈ (handleDecision c inst d r).2.client.policies,
      q.Namespace = p.Namespace ∧ q.Name = p.Name) := by
  have hrun := handleDecision_run c inst d r
  generalize handleDecision c inst d r = out at hrun
  have hsame : ∀ p ∈ r.client.policies, ∃ q ∈ r.client.policies,
      q.Namespace = p.Namespace ∧ q.Name = p.Name := fun p hp => ⟨p, hp, rfl, rfl⟩
  cases hrun with
  | getFailed e hne hf =>
    exact ⟨⟨[⟨.GetPolicy d.ClusterNamespace (c.FullNameForPolicy inst), some e⟩],
      by simp [Client.record], by simp [Call.isDelete, Call.isStatusUpdate]⟩,
      fun P _ => rfl, hsame⟩
  | upToDate p hf hp heq =>
    exact ⟨⟨[⟨.GetPolicy d.ClusterNamespace (c.FullNameForPolicy inst), none⟩],
      by simp [Client.record], by simp [Call.isDelete, Call.isStatusUpdate]⟩,
      fun P _ => rfl, hsame⟩
  | updateFailed p e hf hp hne hf2 =>
    exact ⟨⟨[⟨.GetPolicy d.ClusterNamespace (c.FullNameForPolicy inst), none⟩,
        ⟨.Update (patched inst p), some e⟩],
      by simp [Client.record], by simp [Call.isDelete, Call.isStatusUpdate]⟩,
      fun P _ => rfl, hsame⟩
  | updated p hf hp hne hf2 =>
    have hk := hasKey_patched _ _ inst p (List.find?_some hp)
    refine ⟨⟨[⟨.GetPolicy d.ClusterNamespace (c.FullNameForPolicy inst), none⟩,
        ⟨.Update (patched inst p), none⟩],
      by simp [Client.record], by simp [Call.isDelete, Call.isStatusUpdate]⟩, ?_, ?_⟩
    · intro P hP
      exact filter_replace _ _ _ _ P hP (hP _ hk)
    · intro q hq
      by_cases hkq : Policy.hasKey d.ClusterNamespace (c.FullNameForPolicy inst) q = true
      · refine ⟨patched inst p, List.mem_map.mpr ⟨q, hq, by simp [hkq]⟩, ?_⟩
        have h1 := (hasKey_iff _ _ _).mp hk
        have h2 := (hasKey_iff _ _ _).mp hkq
        exact ⟨h1.1.trans h2.1.symm, h1.2.trans h2.2.symm⟩
      · exact ⟨q, List.mem_map.mpr ⟨q, hq, by simp [hkq]⟩, rfl, rfl⟩
  | createFailed e hf hp hf2 =>
    exact ⟨⟨[⟨.GetPolicy d.ClusterNamespace (c.FullNameForPolicy inst), some .NotFound⟩,
        ⟨.Create (newReplica c inst d), some e⟩],
      by simp [Client.record], by simp [Call.isDelete, Call.isStatusUpdate]⟩,
      fun P _ => rfl, hsame⟩
  | created hf hp hf2 =>
    refine ⟨⟨[⟨.GetPolicy d.ClusterNamespace (c.FullNameForPolicy inst), some .NotFound⟩,
        ⟨.Create (newReplica c inst d), none⟩],
      by simp [Client.record], by simp [Call.isDelete, Call.isStatusUpdate]⟩, ?_, ?_⟩
    · intro P hP
      simp [List.filter_append, hP _ (hasKey_newReplica c inst d)]
    · intro q hq
      exact ⟨q, List.mem_append_left _ hq, rfl, rfl⟩

/-- The frame invariant of one pass, for any outcome. -/
theorem bindingLoop_frame (c : Common) (inst : Policy) (cl0 : Client)
    (pbs : List PlacementBinding) (st : Pass)
    (hlog : ∃ calls, st.r.client.log = cl0.log ++ calls ∧
      ∀ x ∈ calls, x.call.isDelete = false ∧ x.call.isStatusUpdate = false)
    (hpol : st.r.client.policies = cl0.policies) :
    (∃ calls, (bindingLoop c inst pbs st).2.r.client.log = cl0.log ++ calls ∧
      ∀ x ∈ calls, x.call.isDelete = false ∧ x.call.isStatusUpdate = false) ∧
    (∀ P : Policy → Bool,
      (∀ d ∈ (bindingLoop c inst pbs st).2.allDecisions, ∀ q,
        Policy.hasKey d.ClusterNamespace (c.FullNameForPolicy inst) q = true → P q = false) →
      (bindingLoop c inst pbs st).2.r.client.policies.filter P = cl0.policies.filter P) ∧
    (∀ p ∈ cl0.policies, ∃ q ∈ (bindingLoop c inst pbs st).2.r.client.policies,
      q.Namespace = p.Namespace ∧ q.Name = p.Name) := by
  have step : ∀ (st : Pass) (d : PlacementDecision) (out : Option StoreError × ReconcilePolicy),
      handleDecision c inst d st.r = out →
      ((∃ calls, st.r.client.log = cl0.log ++ calls ∧
        ∀ x ∈ calls, x.call.isDelete = false ∧ x.call.isStatusUpdate = false) ∧
      (∀ P : Policy → Bool,
        (∀ d ∈ st.allDecisions, ∀ q,
          Policy.hasKey d.ClusterNamespace (c.FullNameForPolicy inst) q = true → P q = false) →
        st.r.client.policies.filter P = cl0.policies.filter P) ∧
      (∀ p ∈ cl0.policies, ∃ q ∈ st.r.client.policies,
        q.Namespace = p.Namespace ∧ q.Name = p.Name)) →
      ((∃ calls, out.2.client.log = cl0.log ++ calls ∧
        ∀ x ∈ calls, x.call.isDelete = false ∧ x.call.isStatusUpdate = false) ∧
      (∀ P : Policy → Bool,
        (∀ d' ∈ st.allDecisions ++ [d], ∀ q,
          Policy.hasKey d'.ClusterNamespace (c.FullNameForPolicy inst) q = true → P q = false) →
        out.2.client.policies.filter P = cl0.policies.filter P) ∧
      (∀ p ∈ cl0.policies, ∃ q ∈ out.2.client.policies,
        q.Namespace = p.Namespace ∧ q.Name = p.Name)) := by
    rintro st d out hout ⟨⟨calls, hl, hc⟩, hfil, hkeys⟩
    obtain ⟨⟨calls2, hl2, hc2⟩, hfil2, hkeys2⟩ := handleDecision_frame c inst d st.r
    rw [hout] at hl2 hfil2 hkeys2
    refine ⟨⟨calls ++ calls2, by rw [hl2, hl, List.append_assoc], ?_⟩, ?_, ?_⟩
    · intro x hx
      rcases List.mem_append.mp hx with hx | hx
      · exact hc x hx
      · exact hc2 x hx
    · intro P hP
      rw [hfil2 P (hP d (by simp))]
      exact hfil P (fun d' hd' => hP d' (List.mem_append_left _ hd'))
    · intro p hp
      obtain ⟨q, hq, hq1, hq2⟩ := hkeys p hp
      obtain ⟨q', hq', hq1', hq2'⟩ := hkeys2 q hq
      exact ⟨q', hq', hq1'.trans hq1, hq2'.trans hq2⟩
  refine bindingLoop_induction c inst
    (fun st => (∃ calls, st.r.client.log = cl0.log ++ calls ∧
        ∀ x ∈ calls, x.call.isDelete = false ∧ x.call.isStatusUpdate = false) ∧
      (∀ P : Policy → Bool,
        (∀ d ∈ st.allDecisions, ∀ q,
          Policy.hasKey d.ClusterNamespace (c.FullNameForPolicy inst) q = true → P q = false) →
        st.r.client.policies.filter P = cl0.policies.filter P) ∧
      (∀ p ∈ cl0.policies, ∃ q ∈ st.r.client.policies,
        q.Namespace = p.Namespace ∧ q.Name = p.Name))
    (fun o => (∃ calls, o.2.r.client.log = cl0.log ++ calls ∧
        ∀ x ∈ calls, x.call.isDelete = false ∧ x.call.isStatusUpdate = false) ∧
      (∀ P : Policy → Bool,
        (∀ d ∈ o.2.allDecisions, ∀ q,
          Policy.hasKey d.ClusterNamespace (c.FullNameForPolicy inst) q = true → P q = false) →
        o.2.r.client.policies.filter P = cl0.policies.filter P) ∧
      (∀ p ∈ cl0.policies, ∃ q ∈ o.2.r.client.policies,
        q.Namespace = p.Namespace ∧ q.Name = p.Name))
    ?_ ?_ ?_ ?_ ?_ pbs st ?_
  · intro st h; exact h
  · rintro st pb e ⟨⟨calls, hl, hc⟩, hfil, hkeys⟩ _ _
    refine ⟨⟨calls ++ [⟨.GetPlacementRule inst.Namespace pb.PlacementRef.Name, some e⟩],
      by simp [Client.record, hl], ?_⟩, hfil, hkeys⟩
    intro x hx
    rcases List.mem_append.mp hx with hx | hx
    · exact hc x hx
    · simp only [List.mem_singleton] at hx
      subst hx
      exact ⟨rfl, rfl⟩
  · rintro st pb res plrName ⟨⟨calls, hl, hc⟩, hfil, hkeys⟩ _
    refine ⟨⟨calls ++ [⟨.GetPlacementRule inst.Namespace pb.PlacementRef.Name, res⟩],
      by simp [Client.record, hl], ?_⟩, hfil, hkeys⟩
    intro x hx
    rcases List.mem_append.mp hx with hx | hx
    · exact hc x hx
    · simp only [List.mem_singleton] at hx
      subst hx
      exact ⟨rfl, rfl⟩
  · intro st d r h hd
    exact step st d (none, r) hd h
  · intro st d e r h hd
    exact step st d (some e, r) hd h
  · refine ⟨hlog, fun P _ => by rw [hpol], fun p hp => ⟨p, by rw [hpol]; exact hp, rfl, rfl⟩⟩

/-- C14, as stated, fails in its last part: the replica stored for the target `c2/c1` is
modified by a pass whose only decision names the target `c1/c1`, because both targets resolve
to the replica identity `c1/ns1.pol-a`. -/
theorem handleRootPolicy_stale_target_counterexample :
    exRoot.Spec.Disabled = false ∧
    exOtherClusterStore.client.policies.map
      (fun p => (p.Namespace, p.Name, p.Labels.lookup "cluster-name",
        p.Labels.lookup "cluster-namespace", p.Spec.Payload)) =
      [("c1", "ns1.pol-a", some "c2", some "c1", "tampered")] ∧
    (handleRootPolicy exCommon exRoot exOtherClusterStore).err = none ∧
    (handleRootPolicy exCommon exRoot exOtherClusterStore).allDecisions = [⟨"c1", "c1"⟩] ∧
    (handleRootPolicy exCommon exRoot exOtherClusterStore).r.client.policies.map
      (fun p => (p.Namespace, p.Name, p.Labels.lookup "cluster-name",
        p.Labels.lookup "cluster-namespace", p.Spec.Payload)) =
      [("c1", "ns1.pol-a", some "c2", some "c1", "spec")] := by
  refine ⟨by decide, by decide, by decide, by decide, by decide⟩

/-- C14, amended: a pass for an enabled root issues no delete and no status update and leaves the
root object as it is; every key stored before the pass is still stored after it; and the stored
objects that do not sit at the replica identity (cluster namespace and replica name) of a
decision handled in the pass are, after the pass, exactly what they were before it: none
removed, none modified, none added. In particular a replica of the root in a cluster namespace
that no decision of the pass names is neither removed nor modified. -/
theorem handleRootPolicy_enabled_frame (c : Common) (inst : Policy) (r : ReconcilePolicy)
    (hen : inst.Spec.Disabled = false) :
    (∀ x ∈ newCalls r.client (handleRootPolicy c inst r).r.client,
      x.call.isDelete = false ∧ x.call.isStatusUpdate = false) ∧
    (handleRootPolicy c inst r).inst = inst ∧
    (∀ p ∈ r.client.policies, ∃ q ∈ (handleRootPolicy c inst r).r.client.policies,
      q.Namespace = p.Namespace ∧ q.Name = p.Name) ∧
    (handleRootPolicy c inst r).r.client.policies.filter
        (fun p => !atHandledIdentity c inst (handleRootPolicy c inst r).allDecisions p) =
      r.client.policies.filter
        (fun p => !atHandledIdentity c inst (handleRootPolicy c inst r).allDecisions p) := by
  unfold handleRootPolicy Client.ListPlacementBindings
  simp only [hen, Bool.false_eq_true, if_false]
  cases hf : r.client.fault with
  | some e =>
    simp only
    rw [newCalls_append r.client _ [⟨.ListPlacementBindings inst.Namespace, some e⟩]
      (by simp [Client.record])]
    refine ⟨by simp [Call.isDelete, Call.isStatusUpdate], trivial, ?_, ?_⟩
    · intro p hp
      exact ⟨p, by simpa [record_policies] using hp, rfl, rfl⟩
    · simp [record_policies]
  | none =>
    simp only
    have hfr := bindingLoop_frame c inst r.client
      (r.client.bindings.filter (fun pb => decide (pb.Namespace = inst.Namespace)))
      ⟨{ r with client := r.client.record (.ListPlacementBindings inst.Namespace) none }, [], []⟩
      ⟨[⟨.ListPlacementBindings inst.Namespace, none⟩], by simp [Client.record],
        by simp [Call.isDelete, Call.isStatusUpdate]⟩ rfl
    cases hbl : bindingLoop c inst
        (r.client.bindings.filter (fun pb => decide (pb.Namespace = inst.Namespace)))
        ⟨{ r with client := r.client.record (.ListPlacementBindings inst.Namespace) none }, [], []⟩ with
    | mk err st1 =>
      rw [hbl] at hfr
      obtain ⟨⟨calls, hl, hc⟩, hfil, hkeys⟩ := hfr
      simp only at hl hfil hkeys ⊢
      rw [newCalls_append r.client _ calls hl]
      refine ⟨hc, trivial, hkeys, hfil _ ?_⟩
      intro d hd q hq
      have hat : atHandledIdentity c inst st1.allDecisions q = true :=
        List.any_eq_true.mpr ⟨d, hd, hq⟩
      simp [hat]

/-- Witness for the amended C14: a stale replica in a namespace that no decision names. -/
theorem handleRootPolicy_enabled_frame_witness :
    (handleRootPolicy exCommon exRoot exStaleStore).r.client.policies.map
      (fun p => (p.Namespace, p.Spec.Payload)) = [("c9", "stale"), ("c1", "spec")] ∧
    ((∀ x ∈ newCalls exStaleStore.client (handleRootPolicy exCommon exRoot exStaleStore).r.client,
      x.call.isDelete = false ∧ x.call.isStatusUpdate = false) ∧
    (handleRootPolicy exCommon exRoot exStaleStore).inst = exRoot ∧
    (∀ p ∈ exStaleStore.client.policies,
      ∃ q ∈ (handleRootPolicy exCommon exRoot exStaleStore).r.client.policies,
        q.Namespace = p.Namespace ∧ q.Name = p.Name) ∧
    (handleRootPolicy exCommon exRoot exStaleStore).r.client.policies.filter
        (fun p => !atHandledIdentity exCommon exRoot
          (handleRootPolicy exCommon exRoot exStaleStore).allDecisions p) =
      exStaleStore.client.policies.filter
        (fun p => !atHandledIdentity exCommon exRoot
          (handleRootPolicy exCommon exRoot exStaleStore).allDecisions p)) :=
  ⟨by decide, handleRootPolicy_enabled_frame exCommon exRoot exStaleStore (by decide)⟩

/-! ## The stored policies after a successful pass -/

theorem handleDecision_ok_policies (c : Common) (inst : Policy) (d : PlacementDecision)
    (r r1 : ReconcilePolicy) (h : handleDecision c inst d r = (none, r1)) :
    r1.client.policies = applyDecision c inst r.client.policies d := by
  have hrun := handleDecision_run c inst d r
  rw [h] at hrun
  unfold applyDecision
  cases hrun with
  | upToDate p hf hp heq => simp [hp, heq, record_policies]
  | updated p hf hp hne hf2 => simp [hp, hne]
  | created hf hp hf2 => simp [hp]

/-- After a pass over the bindings that returned `nil`, the stored policies are the result of
applying the decisions handled, in order. -/
theorem bindingLoop_ok_policies (c : Common) (inst : Policy) (pbs : List PlacementBinding)
    (st : Pass) (hdec : st.allDecisions = [])
    (hok : (bindingLoop c inst pbs st).1 = none) :
    (bindingLoop c inst pbs st).2.r.client.policies =
      (bindingLoop c inst pbs st).2.allDecisions.foldl (applyDecision c inst)
        st.r.client.policies := by
  refine bindingLoop_induction c inst
    (fun s => s.r.client.policies =
      s.allDecisions.foldl (applyDecision c inst) st.r.client.policies)
    (fun o => o.1 = none → o.2.r.client.policies =
      o.2.allDecisions.foldl (applyDecision c inst) st.r.client.policies)
    ?_ ?_ ?_ ?_ ?_ pbs st ?_ hok
  · intro s h _; exact h
  · intro s pb e _ _ _ h; cases h
  · intro s pb res plrName h _; exact h
  · intro s d r h hd
    have := handleDecision_ok_policies c inst d s.r r hd
    show r.client.policies = _
    rw [this, List.foldl_append, ← h]
    rfl
  · intro s d e r _ _ h; cases h
  · show st.r.client.policies = _
    rw [hdec]; rfl

/-- The outcome of the scenario of C12, for any constants and any root `ns1/pol-a`: one
decision is handled and the only replica is the object built on the not-found branch. -/
theorem scenario_replicas (c : Common) (inst : Policy) (r : ReconcilePolicy)
    (pb : PlacementBinding) (hen : inst.Spec.Disabled = false)
    (hns : inst.Namespace = "ns1")
    (hb : r.client.bindings = [pb]) (hpb : pb.Namespace = "ns1")
    (hsub : pb.Subjects.any (subjectMatches c inst) = true)
    (href : pb.PlacementRef.Name = "rule-1")
    (hrule : decisionsOf r.client.rules "ns1" "rule-1" = [⟨"c1", "c1"⟩])
    (hnone : replicasOf c inst r.client.policies = [])
    (hok : (handleRootPolicy c inst r).err = none) :
    (handleRootPolicy c inst r).r.client.policies =
      r.client.policies ++ [newReplica c inst ⟨"c1", "c1"⟩] := by
  have hsum := (handleRootPolicy_ok_summary c inst r hen hok).1
  have hmb : matchingBindings c inst r.client = [pb] := by
    simp [matchingBindings, hb, hpb, hns, hsub]
  rw [hmb] at hsum
  simp only [List.flatMap_cons, List.flatMap_nil, List.append_nil, hns, href, hrule] at hsum
  unfold handleRootPolicy Client.ListPlacementBindings at hok hsum ⊢
  simp only [hen, Bool.false_eq_true, if_false] at hok hsum ⊢
  cases hf : r.client.fault with
  | some e => rw [hf] at hok; simp at hok
  | none =>
    rw [hf] at hok hsum
    simp only at hok hsum ⊢
    have hpol := bindingLoop_ok_policies c inst _ _ rfl hok
    rw [hpol, hsum]
    have hfind : r.client.policies.find?
        (Policy.hasKey "c1" (c.FullNameForPolicy inst)) = none := by
      rw [List.find?_eq_none]
      intro p hp hk
      have hk' := (hasKey_iff _ _ _).mp hk
      have : p ∈ replicasOf c inst r.client.policies :=
        List.mem_filter.mpr ⟨hp, by simp [hk'.2]⟩
      rw [hnone] at this
      cases this
    simp [applyDecision, record_policies, hfind]

/-- C12, as stated, fails: with the sample constants the replica of the scenario is named
`ns1.pol-a` and carries that same value as its owning-root label; and for no choice of the
constants and of `FullNameForPolicy` is the replica named `pol-a-ns1` while its owning-root
label is `ns1/pol-a`, since the code sets both from the one value `FullNameForPolicy(root)`. -/
theorem handleRootPolicy_scenario_counterexample :
    (handleRootPolicy exCommon exRoot (exScenario exCommon)).err = none ∧
    (handleRootPolicy exCommon exRoot (exScenario exCommon)).r.client.policies.map
      (fun p => (p.Namespace, p.Name, p.Labels.lookup exCommon.RootPolicyLabel)) =
        [("c1", "ns1.pol-a", some "ns1.pol-a")] ∧
    ¬ ∃ c : Common, (handleRootPolicy c exRoot (exScenario c)).err = none ∧
      ∃ p ∈ (handleRootPolicy c exRoot (exScenario c)).r.client.policies,
        p.Name = "pol-a-ns1" ∧ p.Labels.lookup c.RootPolicyLabel = some "ns1/pol-a" := by
  refine ⟨by decide, by decide, ?_⟩
  rintro ⟨c, hok, p, hp, hname, hlabel⟩
  have hpol := scenario_replicas c exRoot (exScenario c)
    ⟨"ns1", "pb", ⟨"rule-1"⟩, [⟨c.Group, c.Kind, "pol-a"⟩]⟩ rfl rfl rfl rfl
    (by simp [subjectMatches, exRoot]) rfl (by simp [decisionsOf, exScenario]) rfl hok
  rw [hpol] at hp
  simp only [exScenario, List.nil_append, List.mem_singleton] at hp
  subst hp
  have h1 : c.FullNameForPolicy exRoot = "pol-a-ns1" := hname
  have h2 : c.FullNameForPolicy exRoot = "ns1/pol-a" := by
    simpa [newReplica] using hlabel
  rw [h1] at h2
  exact absurd h2 (by decide)

/-- C12, amended: in the scenario (an enabled root in `ns1`, one binding in `ns1` with a subject
naming it and referring to `rule-1`, whose single decision is `c1/c1`, no replica stored), after
`handleRootPolicy` returns `nil` the store holds exactly one replica of the root; it is in
namespace `c1`, its name is `FullNameForPolicy(root)`, its labels are cluster-name `c1`,
cluster-namespace `c1` and owning-root `FullNameForPolicy(root)`, the same value as its name, and
its spec and annotations are the root's (the label keys being pairwise different). -/
theorem handleRootPolicy_scenario (c : Common) (inst : Policy) (r : ReconcilePolicy)
    (pb : PlacementBinding)
    (hkeys : c.ClusterNameLabel ≠ c.ClusterNamespaceLabel ∧ c.ClusterNameLabel ≠ c.RootPolicyLabel ∧
      c.ClusterNamespaceLabel ≠ c.RootPolicyLabel)
    (hen : inst.Spec.Disabled = false) (hns : inst.Namespace = "ns1")
    (hb : r.client.bindings = [pb]) (hpb : pb.Namespace = "ns1")
    (hsub : pb.Subjects.any (subjectMatches c inst) = true)
    (href : pb.PlacementRef.Name = "rule-1")
    (hrule : decisionsOf r.client.rules "ns1" "rule-1" = [⟨"c1", "c1"⟩])
    (hnone : replicasOf c inst r.client.policies = [])
    (hok : (handleRootPolicy c inst r).err = none) :
    ∃ p, replicasOf c inst (handleRootPolicy c inst r).r.client.policies = [p] ∧
      p.Namespace = "c1" ∧ p.Name = c.FullNameForPolicy inst ∧
      p.Labels.lookup c.ClusterNameLabel = some "c1" ∧
      p.Labels.lookup c.ClusterNamespaceLabel = some "c1" ∧
      p.Labels.lookup c.RootPolicyLabel = some (c.FullNameForPolicy inst) ∧
      p.Labels.lookup c.RootPolicyLabel = some p.Name ∧
      p.Spec = inst.Spec ∧ p.Annotations = inst.Annotations := by
  have hpol := scenario_replicas c inst r pb hen hns hb hpb hsub href hrule hnone hok
  refine ⟨newReplica c inst ⟨"c1", "c1"⟩, ?_, rfl, rfl, ?_, ?_, ?_, ?_, rfl, rfl⟩
  · rw [hpol]
    unfold replicasOf at hnone ⊢
    rw [List.filter_append, hnone]
    simp [newReplica]
  · simp [newReplica, Finmap.lookup_insert_of_ne, hkeys.1, hkeys.2.1]
  · simp [newReplica, Finmap.lookup_insert_of_ne, hkeys.2.2]
  · simp [newReplica]
  · simp [newReplica]

/-- Witness for the amended C12: the scenario with the sample constants. -/
theorem handleRootPolicy_scenario_witness :
    ∃ p, replicasOf exCommon exRoot
        (handleRootPolicy exCommon exRoot (exScenario exCommon)).r.client.policies = [p] ∧
      p.Namespace = "c1" ∧ p.Name = exCommon.FullNameForPolicy exRoot ∧
      p.Labels.lookup exCommon.ClusterNameLabel = some "c1" ∧
      p.Labels.lookup exCommon.ClusterNamespaceLabel = some "c1" ∧
      p.Labels.lookup exCommon.RootPolicyLabel = some (exCommon.FullNameForPolicy exRoot) ∧
      p.Labels.lookup exCommon.RootPolicyLabel = some p.Name ∧
      p.Spec = exRoot.Spec ∧ p.Annotations = exRoot.Annotations :=
  handleRootPolicy_scenario exCommon exRoot (exScenario exCommon)
    ⟨"ns1", "pb", ⟨"rule-1"⟩, [⟨"policies", "Policy", "pol-a"⟩]⟩
    ⟨by decide, by decide, by decide⟩ (by decide) rfl rfl rfl (by decide) rfl (by decide) rfl
    (by decide)

end Propagator
